import Mathlib

/-!
# DVB table parsing (`utils/dvb/libscan.c`)

A shallow embedding of `parse_pat`, `parse_pmt`, `read_section` and
`get_dvb_ts_tables`, followed by the properties established about them.

Conventions of the embedding

* `unsigned char` is `Fin 256`; every C `int` is an `Int` or a `Nat` (no value
  computed here leaves the range of a 32-bit `int`).
* A pointer into the receive buffer is the buffer together with an offset `p`;
  `buf[k]` of the C code is `byte buf (p + k)`.
* The array `pat_table.pid_table` is a heap block: the list holds one element
  per slot the block has room for, so `pid_table.length` is the capacity that
  the last `realloc` gave, while `pid_table_len` is the counter kept by the
  code.  A store to a slot outside the block is a `fault`.
* `video_pid` / `audio_pid` are reallocated to exactly `++len` elements before
  every store, so they are plain lists whose length is `video_pid_len` /
  `audio_pid_len`.
* The demux is an input: per call of `read_section` it says whether the
  `DMX_SET_FILTER` ioctl succeeds and which deliveries follow (`session`), and
  `get_dvb_ts_tables` records the calls of `read_section` it makes.
* The header `libscan.h` is not part of the sources at hand: the structs carry
  the fields the code uses, and `sizeof(struct pid_table)` is the parameter
  `sz`.
* Diagnostic output (`printf`, `hexdump`, `perror`) is not modelled.
-/

namespace Libscan

/-- An `unsigned char`. -/
abbrev uchar := Fin 256

/-- The value of `buf[i]`, promoted to `int`.  A list shorter than the array
it stands for is continued with zero bytes. -/
def byte (buf : List uchar) (i : Nat) : Nat := (buf.getD i 0).val

/-- Memory errors and the exhaustion of the iteration budget of a loop. -/
inductive fault where
  /-- A store to `pid_table[index]` in a block with room for `capacity` entries. -/
  | heap_overflow (index capacity : Nat)
  /-- A load from `pid_table[index]` in a block with room for `capacity` entries. -/
  | out_of_block (index capacity : Nat)
  /-- A dereference of a NULL `struct pid_table *`. -/
  | null_pointer
  /-- The iteration budget given to a loop of the embedding ran out. -/
  | out_of_fuel
deriving DecidableEq, Repr

deriving instance DecidableEq for Except

/-- The fields of `struct pmt_table` that the code assigns. -/
structure pmt_table where
  program_number : Nat
  version : Nat
  pcr_pid : Nat
deriving DecidableEq, Repr

/-- The fields of `struct pid_table` that the code uses. -/
structure pid_table where
  program_number : Nat
  pid : Nat
  pmt_table : pmt_table
  video_pid : List Nat
  audio_pid : List Nat
deriving DecidableEq, Repr

/-- The fields of `struct pat_table` that the code uses. -/
structure pat_table where
  ts_id : Nat
  version : Nat
  pid_table : List pid_table
  pid_table_len : Nat
deriving DecidableEq, Repr

/-- The part of `struct dvb_descriptors` that the code touches. -/
structure dvb_descriptors where
  pat_table : pat_table
deriving DecidableEq, Repr

/-- An entry after `memset(&pid_table[n], 0, sizeof(pid_table[n]))`. -/
def zero_entry : pid_table :=
  { program_number := 0, pid := 0,
    pmt_table := { program_number := 0, version := 0, pcr_pid := 0 },
    video_pid := [], audio_pid := [] }

/-- The entry stored by one round of the loop of `parse_pat`: the `memset` of
line 40 followed by the two assignments of lines 43-44. -/
def pat_entry (service_id pmt_pid : Nat) : pid_table :=
  { zero_entry with program_number := service_id, pid := pmt_pid }

/-- The aggregate as `calloc` returns it. -/
def calloc_desc : dvb_descriptors :=
  { pat_table := { ts_id := 0, version := 0, pid_table := [], pid_table_len := 0 } }

/-- Number of entries that fit the block requested by
`realloc(pid_table, sizeof(*pid_table) * *section_length / 4)`, for a struct of
`sz` bytes.  The product is computed in `size_t`: a negative `*section_length`
wraps to a request of about `2^62` bytes, which `realloc` answers with NULL,
hence no room at all. -/
def pat_capacity (sz : Nat) (section_length : Int) : Nat :=
  if 0 ≤ section_length then (sz * section_length.toNat / 4) / sz else 0

/-- The block after `realloc` to room for `cap` entries: the leading entries
are kept, the block is cut or extended (fresh slots are written before they
are read; they are shown zeroed). -/
def realloc_entries (block : List pid_table) (cap : Nat) : List pid_table :=
  block.take cap ++ List.replicate (cap - block.length) zero_entry

/-- The `while (*section_length > 3)` loop of `parse_pat`, lines 36-51.
State: read offset `p`, `*section_length`, the block and `n`. -/
def parse_pat_loop (buf : List uchar) :
    Nat → Nat → Int → List pid_table → Nat → Except fault (List pid_table × Int × Nat)
  | fuel, p, section_length, tbl, n =>
    if section_length > 3 then
      match fuel with
      | 0 => .error fault.out_of_fuel
      | fuel + 1 =>
        let service_id := (byte buf p <<< 8) ||| byte buf (p + 1)
        let pmt_pid := ((byte buf (p + 2) &&& 0x1f) <<< 8) ||| byte buf (p + 3)
        if n < tbl.length then
          parse_pat_loop buf fuel (p + 4) (section_length - 4)
            (tbl.set n (pat_entry service_id pmt_pid))
            (n + 1)
        else .error (fault.heap_overflow n tbl.length)
    else .ok (tbl, section_length, n)

/-- The function `parse_pat`, lines 21-53.  Returns the aggregate and the final
`*section_length`. -/
def parse_pat (sz : Nat) (dvb_desc : dvb_descriptors) (buf : List uchar) (p : Nat)
    (section_length : Int) (id version : Nat) : Except fault (dvb_descriptors × Int) :=
  let tbl := realloc_entries dvb_desc.pat_table.pid_table (pat_capacity sz section_length)
  let n := dvb_desc.pat_table.pid_table_len
  match parse_pat_loop buf section_length.toNat p section_length tbl n with
  | .error f => .error f
  | .ok (tbl, section_length, n) =>
    .ok ({ pat_table := { ts_id := id, version := version,
                          pid_table := tbl, pid_table_len := n } }, section_length)

/-- The `switch (buf[0])` of `parse_pmt`, lines 82-109: what the record of
stream type `stream_type` and elementary pid `pid` does to the entry. -/
def store_stream (stream_type pid : Nat) (e : pid_table) : pid_table :=
  if stream_type = 0x01 ∨ stream_type = 0x02 ∨ stream_type = 0x10 ∨ stream_type = 0x1b then
    { e with video_pid := e.video_pid ++ [pid] }
  else if stream_type = 0x03 ∨ stream_type = 0x04 ∨ stream_type = 0x0f ∨
      stream_type = 0x11 ∨ stream_type = 0x81 then
    { e with audio_pid := e.audio_pid ++ [pid] }
  else e

/-- The `while (*section_length >= 5)` loop of `parse_pmt`, lines 78-113. -/
def parse_pmt_loop (buf : List uchar) :
    Nat → Nat → Int → pid_table → Except fault (pid_table × Int)
  | fuel, p, section_length, e =>
    if section_length ≥ 5 then
      match fuel with
      | 0 => .error fault.out_of_fuel
      | fuel + 1 =>
        let len := ((byte buf (p + 3) &&& 0x0f) <<< 8) ||| byte buf (p + 4)
        let pid := ((byte buf (p + 1) &&& 0x1f) <<< 8) ||| byte buf (p + 2)
        parse_pmt_loop buf fuel (p + (len + 5)) (section_length - (len + 5))
          (store_stream (byte buf p) pid e)
    else .ok (e, section_length)

/-- The function `parse_pmt`, lines 55-114, on the entry `*pid_table`.  Returns
the entry and the final `*section_length`. -/
def parse_pmt (e : pid_table) (buf : List uchar) (p : Nat) (section_length : Int)
    (id version : Nat) : Except fault (pid_table × Int) :=
  let pcr_pid := ((byte buf p &&& 0x1f) <<< 8) ||| byte buf (p + 1)
  let len := ((byte buf (p + 2) &&& 0x0f) <<< 8) ||| byte buf (p + 3)
  let e := { e with pmt_table := { program_number := id, version := version,
                                   pcr_pid := pcr_pid } }
  let section_length := section_length - (len + 4)
  parse_pmt_loop buf section_length.toNat (p + (len + 4)) section_length e

/-- What one round of the wait loop of `read_section` (lines 171-175) ends
with. -/
inductive delivery where
  /-- The call of `poll` returns 0: nothing arrived within the 10 seconds. -/
  | timeout
  /-- The round ends with `count < 0` and `errno == EOVERFLOW`. -/
  | overrun
  /-- The round ends with `count < 0` and another `errno`. -/
  | io_error
  /-- The call of `read` stores `bytes` at the start of `buf` and returns their
  number (at most `sizeof(buf)`, 4096). -/
  | data (bytes : List uchar)
deriving DecidableEq, Repr

/-- What a call of `read_section` leaves: the value returned, the aggregate,
the deliveries not consumed and whether `close(dmx_fd)` was called. -/
structure read_result where
  ret : Int
  dvb_desc : dvb_descriptors
  feed : List delivery
  closed : Bool
deriving DecidableEq, Repr

/-- The 12-bit `section_length` field of the section in `buf`, line 193. -/
def section_length_field (buf : List uchar) : Int :=
  (((byte buf 1 &&& 0x0f) <<< 8) ||| byte buf 2 : Nat)

/-- Lines 199-225 of `read_section`: header fields, then the `switch` on
`table_id`.  `ptr` is the index of the entry that the `void *ptr` points to
(`none` for NULL).  Returns the aggregate and `next`. -/
def decode_section (sz : Nat) (ptr : Option Nat) (dvb_desc : dvb_descriptors)
    (buf : List uchar) : Except fault (dvb_descriptors × Bool) :=
  let table_id := byte buf 0
  let section_length := section_length_field buf
  let id := (byte buf 3 <<< 8) ||| byte buf 4
  let version := (byte buf 5 >>> 1) &&& 0x1f
  let next := decide (byte buf 6 ≠ byte buf 7)
  let section_length := section_length - 8
  if table_id = 0x00 then
    match parse_pat sz dvb_desc buf 8 section_length id version with
    | .error f => .error f
    | .ok (d, _) => .ok (d, next)
  else if table_id = 0x02 then
    match ptr with
    | none => .error fault.null_pointer
    | some i =>
      match dvb_desc.pat_table.pid_table.get? i with
      | none => .error (fault.out_of_block i dvb_desc.pat_table.pid_table.length)
      | some e =>
        match parse_pmt e buf 8 section_length id version with
        | .error f => .error f
        | .ok (e, _) =>
          .ok ({ pat_table := { dvb_desc.pat_table with
                   pid_table := dvb_desc.pat_table.pid_table.set i e } }, next)
  else .ok (dvb_desc, next)

/-- The framing test of lines 189-196 on a delivery of `count` bytes now in
`buf`. -/
def framing_ok (buf : List uchar) (count : Nat) : Bool :=
  decide (¬ count < 3) && decide ((count : Int) = section_length_field buf + 3)

/-- The outer `do ... while (next)` loop of `read_section`, lines 170-228, run
on the deliveries that the demux produces; once they are used up nothing more
arrives and `poll` times out.  `next` and `buf` keep their values from one
round to the next. -/
def read_loop (sz : Nat) (ptr : Option Nat) :
    List delivery → Bool → dvb_descriptors → List uchar → Except fault read_result
  | [], _, d, _ => .ok { ret := -1, dvb_desc := d, feed := [], closed := false }
  | .timeout :: rest, _, d, _ =>
    .ok { ret := -1, dvb_desc := d, feed := rest, closed := false }
  | .overrun :: rest, next, d, buf => read_loop sz ptr rest next d buf
  | .io_error :: rest, _, d, _ =>
    .ok { ret := -1, dvb_desc := d, feed := rest, closed := true }
  | .data bytes :: rest, next, d, buf =>
    let count := bytes.length
    if count = 0 then .ok { ret := -1, dvb_desc := d, feed := rest, closed := false }
    else
      let buf := bytes ++ buf.drop count
      if framing_ok buf count then
        match decode_section sz ptr d buf with
        | .error f => .error f
        | .ok (d, next) =>
          if next then read_loop sz ptr rest next d buf
          else .ok { ret := 0, dvb_desc := d, feed := rest, closed := false }
      else
        -- `continue` in a `do ... while`: control goes to the test of `next`
        if next then read_loop sz ptr rest next d buf
        else .ok { ret := 0, dvb_desc := d, feed := rest, closed := false }

/-- What the demux does during one call of `read_section`: whether the
`DMX_SET_FILTER` ioctl succeeds, the bytes lying in the local array `buf` at
entry (it is not initialised, and `read` overwrites only its first `count`
bytes) and the deliveries that follow. -/
structure session where
  ioctl_ok : Bool
  stack : List uchar
  feed : List delivery

/-- The function `read_section`, lines 149-229.  `dmx pid table` is what the
demux does once the filter is set to `pid` and `table`; `fd_closed` tells
whether `dmx_fd` was closed by an earlier call. -/
def read_section (sz : Nat) (dmx : Nat → Nat → session) (fd_closed : Bool)
    (dvb_desc : dvb_descriptors) (pid table : Nat) (ptr : Option Nat) :
    Except fault read_result :=
  let s := dmx pid table
  if fd_closed || !s.ioctl_ok then
    .ok { ret := -1, dvb_desc := dvb_desc, feed := s.feed, closed := true }
  else read_loop sz ptr s.feed false dvb_desc s.stack

/-- The environment of a run of `get_dvb_ts_tables`: whether `open` and
`calloc` succeed, and what the demux does during the `k`-th call of
`read_section` (counted from 0) once its filter is set. -/
structure device where
  open_ok : Bool
  calloc_ok : Bool
  sessions : Nat → Nat → Nat → session

/-- The state carried through `get_dvb_ts_tables`: the aggregate, whether
`dmx_fd` has been closed, the number of calls of `read_section` made so far and
their arguments `(pid, table, ptr)` in order. -/
structure scan_state where
  dvb_desc : dvb_descriptors
  fd_closed : Bool
  calls : Nat
  reads : List (Nat × Nat × Option Nat)
deriving DecidableEq, Repr

/-- One statement `read_section(dmx_fd, dvb_desc, pid, table, ptr);` of
`get_dvb_ts_tables`: the value returned is dropped. -/
def call_read_section (sz : Nat) (dev : device) (st : scan_state)
    (pid table : Nat) (ptr : Option Nat) : Except fault scan_state :=
  match read_section sz (dev.sessions st.calls) st.fd_closed st.dvb_desc pid table ptr with
  | .error f => .error f
  | .ok r =>
    .ok { dvb_desc := r.dvb_desc, fd_closed := st.fd_closed || r.closed,
          calls := st.calls + 1, reads := st.reads ++ [(pid, table, ptr)] }

/-- The `for` loop of `get_dvb_ts_tables`, lines 251-259, from index `i` on. -/
def pmt_phase (sz : Nat) (dev : device) : Nat → Nat → scan_state → Except fault scan_state
  | fuel, i, st =>
    if i < st.dvb_desc.pat_table.pid_table_len then
      match fuel with
      | 0 => .error fault.out_of_fuel
      | fuel + 1 =>
        match st.dvb_desc.pat_table.pid_table.get? i with
        | none => .error (fault.out_of_block i st.dvb_desc.pat_table.pid_table.length)
        | some e =>
          let pn := e.program_number % 65536
          if pn < 0x0010 ∨ pn = 0x1fff then pmt_phase sz dev fuel (i + 1) st
          else
            match call_read_section sz dev st e.pid 0x02 (some i) with
            | .error f => .error f
            | .ok st => pmt_phase sz dev fuel (i + 1) st
    else .ok st

/-- The four probes of lines 261-267. -/
def nit_sat_phase (sz : Nat) (dev : device) (st : scan_state) : Except fault scan_state :=
  match call_read_section sz dev st 0x0010 0x40 none with
  | .error f => .error f
  | .ok st =>
    match call_read_section sz dev st 0x0010 0x41 none with
    | .error f => .error f
    | .ok st =>
      match call_read_section sz dev st 0x0011 0x42 none with
      | .error f => .error f
      | .ok st => call_read_section sz dev st 0x0011 0x46 none

/-- What `get_dvb_ts_tables` hands back: the pointer returned (`none` for
NULL) and the calls of `read_section` it made. -/
structure scan_result where
  result : Option dvb_descriptors
  reads : List (Nat × Nat × Option Nat)
deriving DecidableEq, Repr

/-- The function `get_dvb_ts_tables`, lines 231-272. -/
def get_dvb_ts_tables (sz : Nat) (dev : device) : Except fault scan_result :=
  if !dev.open_ok then .ok { result := none, reads := [] }
  else if !dev.calloc_ok then .ok { result := none, reads := [] }
  else
    let st : scan_state :=
      { dvb_desc := calloc_desc, fd_closed := false, calls := 0, reads := [] }
    match call_read_section sz dev st 0 0 none with
    | .error f => .error f
    | .ok st =>
      match pmt_phase sz dev st.dvb_desc.pat_table.pid_table_len 0 st with
      | .error f => .error f
      | .ok st =>
        match nit_sat_phase sz dev st with
        | .error f => .error f
        | .ok st => .ok { result := some st.dvb_desc, reads := st.reads }

/-! ## Definitions used to state the properties -/

/-- The entries that `k` rounds of the loop of `parse_pat` store when the read
offset starts at `p`. -/
def pat_records (buf : List uchar) (p : Nat) : Nat → List pid_table
  | 0 => []
  | k + 1 =>
    pat_entry ((byte buf p <<< 8) ||| byte buf (p + 1))
        (((byte buf (p + 2) &&& 0x1f) <<< 8) ||| byte buf (p + 3))
      :: pat_records buf (p + 4) k

/-- The stream types stored as video. -/
def is_video (stream_type : Nat) : Bool :=
  stream_type == 0x01 || stream_type == 0x02 || stream_type == 0x10 || stream_type == 0x1B

/-- The stream types stored as audio. -/
def is_audio (stream_type : Nat) : Bool :=
  stream_type == 0x03 || stream_type == 0x04 || stream_type == 0x0F ||
    stream_type == 0x11 || stream_type == 0x81

/-- The elementary-stream records of a PMT payload, written from the
description of the PMT decoder and not from the code, as pairs
`(stream_type, elementary_pid)`: while at
least 5 bytes remain, `stream_type` is byte 0, `elementary_pid` is bytes 1-2
big-endian masked to 13 bits, `es_info_length` is bytes 3-4 big-endian masked
to 12 bits, and the walk advances by `es_info_length + 5`. -/
def es_records (buf : List uchar) (p : Nat) (remaining : Int) : List (Nat × Nat) :=
  if 5 ≤ remaining then
    (byte buf p, ((byte buf (p + 1) <<< 8) ||| byte buf (p + 2)) &&& 0x1FFF) ::
      es_records buf
        (p + ((((byte buf (p + 3) <<< 8) ||| byte buf (p + 4)) &&& 0x0FFF) + 5))
        (remaining - ((((byte buf (p + 3) <<< 8) ||| byte buf (p + 4)) &&& 0x0FFF : Nat) + 5))
  else []
termination_by remaining.toNat
decreasing_by omega

/-- The wait loop ends in a failure before any data is taken: after any number
of overruns the next round times out (also because nothing more arrives), ends
with a hard error, or reads 0 bytes. -/
def fails_at_once : List delivery → Bool
  | [] => true
  | .timeout :: _ => true
  | .io_error :: _ => true
  | .overrun :: rest => fails_at_once rest
  | .data bytes :: _ => bytes.isEmpty

/-- The demux honours the section filter of lines 159-161: every section it
hands out starts with the table id the filter was set to. -/
def respects_filter (dev : device) : Prop :=
  ∀ (k pid table : Nat) (bytes : List uchar),
    delivery.data bytes ∈ (dev.sessions k pid table).feed → bytes ≠ [] →
    byte bytes 0 = table

/-- A device that opens and never delivers anything. -/
def silent_device : device :=
  { open_ok := true, calloc_ok := true,
    sessions := fun _ _ _ => { ioctl_ok := true, stack := [], feed := [] } }

/-- The values held by an entry respect the widths of their fields: a 16-bit
program number, 13-bit pids and a 5-bit version. -/
def entry_fits (e : pid_table) : Bool :=
  decide (e.program_number < 0x10000) && decide (e.pid < 0x2000) &&
    decide (e.pmt_table.pcr_pid < 0x2000) && decide (e.pmt_table.version < 32) &&
    e.video_pid.all (fun v => decide (v < 0x2000)) &&
    e.audio_pid.all (fun a => decide (a < 0x2000))

/-- The values held by the aggregate respect the widths of their fields. -/
def fields_fit (d : dvb_descriptors) : Bool :=
  decide (d.pat_table.version < 32) && d.pat_table.pid_table.all entry_fits

/-- The pair that identifies a program entry. -/
def entry_key (e : pid_table) : Nat × Nat := (e.program_number, e.pid)

/-- The PMT reads expected for the entries `entries`, the first of which has
index `i`: one read `(pid, 0x02, entry)` for every entry whose program number
is at least `0x0010` and is not `0x1FFF`, in the order of the entries. -/
def pmt_reads : Nat → List pid_table → List (Nat × Nat × Option Nat)
  | _, [] => []
  | i, e :: rest =>
    if 0x0010 ≤ e.program_number ∧ e.program_number ≠ 0x1FFF then
      (e.pid, 0x02, some i) :: pmt_reads (i + 1) rest
    else pmt_reads (i + 1) rest

/-- The program sequence is the same in `d` and `d'`: same `ts_id`, `version`
and entry counter, and slot by slot the same program number and pid. -/
def same_programs (d d' : dvb_descriptors) : Prop :=
  d'.pat_table.ts_id = d.pat_table.ts_id ∧
  d'.pat_table.version = d.pat_table.version ∧
  d'.pat_table.pid_table_len = d.pat_table.pid_table_len ∧
  ∀ m : Nat, (d'.pat_table.pid_table[m]?).map entry_key =
    (d.pat_table.pid_table[m]?).map entry_key

/-- The demux never answers a PMT read on `pid`: whenever the read is issued
its wait loop fails before any data is taken. -/
def pmt_times_out (dev : device) (pid : Nat) : Prop :=
  ∀ k : Nat, fails_at_once (dev.sessions k pid 0x02).feed = true

/-- A demux that delivers a PAT of four programs (program 0 on pid `0x0010`,
program `0x0011` on pid `0x0100`, program `0x0012` on pid `0x0101`, program
`0x1FFF` on pid `0x0200`) in one section and the PMT of program `0x0012` (one
video stream, one audio stream), and nothing else: the PMT of program `0x0011`
never arrives. -/
def sample_device : device :=
  { open_ok := true, calloc_ok := true,
    sessions := fun _ pid table =>
      { ioctl_ok := true, stack := [],
        feed :=
          if table = 0x00 then
            [.data [0x00, 0xB0, 0x19, 0x00, 0x01, 0xC1, 0x00, 0x00,
                    0x00, 0x00, 0xE0, 0x10, 0x00, 0x11, 0xE1, 0x00,
                    0x00, 0x12, 0xE1, 0x01, 0x1F, 0xFF, 0xE2, 0x00,
                    0xDE, 0xAD, 0xBE, 0xEF]]
          else if table = 0x02 ∧ pid = 0x0101 then
            [.data [0x02, 0xB0, 0x17, 0x00, 0x12, 0xC1, 0x00, 0x00, 0xE1, 0x00, 0xF0, 0x00,
                    0x02, 0xE1, 0x00, 0xF0, 0x00, 0x81, 0xE1, 0x01, 0xF0, 0x00,
                    0xDE, 0xAD, 0xBE, 0xEF]]
          else [] } }

/-- What the PAT read leaves on `sample_device`. -/
def sample_pat_read : read_result :=
  { ret := 0,
    dvb_desc := { pat_table := { ts_id := 1, version := 0,
                                 pid_table := [pat_entry 0x0000 0x0010, pat_entry 0x0011 0x0100,
                                               pat_entry 0x0012 0x0101, pat_entry 0x1FFF 0x0200],
                                 pid_table_len := 4 } },
    feed := [], closed := false }

/-! ## Auxiliary facts -/

theorem byte_lt (buf : List uchar) (i : Nat) : byte buf i < 256 := by
  unfold byte
  exact (buf.getD i 0).isLt

theorem shl8_or (x b : Nat) (hb : b < 256) : (x <<< 8) ||| b = x * 256 + b := by
  have h := Nat.mul_add_lt_is_or (i := 8) (b := b) (by simpa using hb) x
  rw [Nat.shiftLeft_eq]
  norm_num at h ⊢
  rw [Nat.mul_comm x 256, ← h]

/-- Masking the high byte with `0x1f` before the shift is masking the 16-bit
value with `0x1FFF`. -/
theorem mask13 (a b : Nat) (hb : b < 256) :
    ((a &&& 0x1f) <<< 8) ||| b = ((a <<< 8) ||| b) &&& 0x1FFF := by
  have h1 : a &&& 0x1f = a % 32 := Nat.and_pow_two_sub_one_eq_mod a 5
  have h2 : ∀ x : Nat, x &&& 0x1FFF = x % 8192 :=
    fun x => Nat.and_pow_two_sub_one_eq_mod x 13
  rw [h1, h2, shl8_or _ _ hb, shl8_or _ _ hb]
  omega

/-- Masking the high byte with `0x0f` before the shift is masking the 16-bit
value with `0x0FFF`. -/
theorem mask12 (a b : Nat) (hb : b < 256) :
    ((a &&& 0x0f) <<< 8) ||| b = ((a <<< 8) ||| b) &&& 0x0FFF := by
  have h1 : a &&& 0x0f = a % 16 := Nat.and_pow_two_sub_one_eq_mod a 4
  have h2 : ∀ x : Nat, x &&& 0x0FFF = x % 4096 :=
    fun x => Nat.and_pow_two_sub_one_eq_mod x 12
  rw [h1, h2, shl8_or _ _ hb, shl8_or _ _ hb]
  omega

/-- The request `sizeof * r / 4` bytes is room for exactly `r / 4` entries. -/
theorem pat_capacity_eq (sz : Nat) (r : Int) (hsz : 0 < sz) (hr : 0 ≤ r) :
    pat_capacity sz r = r.toNat / 4 := by
  unfold pat_capacity
  rw [if_pos hr, Nat.div_div_eq_div_mul, Nat.mul_comm 4 sz,
    Nat.mul_div_mul_left _ _ hsz]

theorem realloc_entries_length (block : List pid_table) (cap : Nat) :
    (realloc_entries block cap).length = cap := by
  unfold realloc_entries
  simp only [List.length_append, List.length_take, List.length_replicate]
  omega

theorem pat_records_length (buf : List uchar) :
    ∀ (k p : Nat), (pat_records buf p k).length = k := by
  intro k
  induction k with
  | zero => intro p; rfl
  | succ k ih => intro p; simp [pat_records, ih]

theorem pat_records_get (buf : List uchar) :
    ∀ (k p i : Nat), i < k →
      (pat_records buf p k)[i]? =
        some (pat_entry ((byte buf (p + 4 * i) <<< 8) ||| byte buf (p + 4 * i + 1))
          (((byte buf (p + 4 * i + 2) &&& 0x1f) <<< 8) ||| byte buf (p + 4 * i + 3))) := by
  intro k
  induction k with
  | zero => intro p i h; omega
  | succ k ih =>
    intro p i h
    cases i with
    | zero => simp [pat_records]
    | succ i =>
      have e : p + 4 + 4 * i = p + 4 * (i + 1) := by omega
      simp only [pat_records, List.getElem?_cons_succ]
      rw [ih (p + 4) i (by omega), e]

/-- With room for the `k = r / 4` records behind the `n` entries in place, the
loop of `parse_pat` stores them in slots `n .. n + k - 1` and stops. -/
theorem parse_pat_loop_ok (buf : List uchar) :
    ∀ (k fuel p : Nat) (r : Int) (pre slots : List pid_table),
      4 * (k : Int) ≤ r → r < 4 * (k : Int) + 4 → k ≤ fuel → k ≤ slots.length →
      parse_pat_loop buf fuel p r (pre ++ slots) pre.length =
        .ok (pre ++ pat_records buf p k ++ slots.drop k, r - 4 * (k : Int),
             pre.length + k) := by
  intro k
  induction k with
  | zero =>
    intro fuel p r pre slots h1 h2 _ _
    have h : ¬ r > 3 := by omega
    unfold parse_pat_loop
    simp [h, pat_records]
  | succ k ih =>
    intro fuel p r pre slots h1 h2 hf hs
    have h : r > 3 := by push_cast at h1; omega
    obtain ⟨fuel, rfl⟩ : ∃ f, fuel = f + 1 := ⟨fuel - 1, by omega⟩
    obtain ⟨s, slots, rfl⟩ : ∃ s t, slots = s :: t := by
      cases slots with
      | nil => simp at hs
      | cons s t => exact ⟨s, t, rfl⟩
    have hlen : pre.length < (pre ++ s :: slots).length := by simp
    unfold parse_pat_loop
    simp only [h, if_true, hlen]
    have hset : ∀ e : pid_table,
        (pre ++ s :: slots).set pre.length e = (pre ++ [e]) ++ slots := by
      intro e
      simp [List.set_append]
    rw [hset]
    have hl : (pre ++ [pat_entry ((byte buf p <<< 8) ||| byte buf (p + 1))
        (((byte buf (p + 2) &&& 0x1f) <<< 8) ||| byte buf (p + 3))]).length
          = pre.length + 1 := by simp
    rw [← hl, ih fuel (p + 4) (r - 4) _ slots (by push_cast at h1; omega)
      (by push_cast at h2; omega) (by omega) (by simpa using hs)]
    simp only [pat_records, List.drop_succ_cons, List.length_append, List.length_singleton,
      List.append_assoc, List.singleton_append, Nat.cast_add, Nat.cast_one]
    congr 2
    congr 1
    · ring
    · omega

/-- A store attempted at or behind the end of the block is a fault. -/
theorem parse_pat_loop_full (buf : List uchar) (fuel p : Nat) (r : Int)
    (tbl : List pid_table) (n : Nat) (hr : r > 3) (hn : tbl.length ≤ n) :
    parse_pat_loop buf (fuel + 1) p r tbl n = .error (fault.heap_overflow n tbl.length) := by
  have h : ¬ n < tbl.length := by omega
  unfold parse_pat_loop
  simp [hr, h]

/-- With `m` free slots behind the `n` entries in place and more than `m`
records to go, the loop of `parse_pat` runs over the end of the block. -/
theorem parse_pat_loop_overflow (buf : List uchar) :
    ∀ (m fuel p : Nat) (r : Int) (tbl : List pid_table) (n : Nat),
      n + m = tbl.length → 4 * ((m : Int) + 1) ≤ r → m + 1 ≤ fuel →
      parse_pat_loop buf fuel p r tbl n =
        .error (fault.heap_overflow tbl.length tbl.length) := by
  intro m
  induction m with
  | zero =>
    intro fuel p r tbl n hn hr hf
    obtain ⟨fuel, rfl⟩ : ∃ f, fuel = f + 1 := ⟨fuel - 1, by omega⟩
    have e : n = tbl.length := by omega
    subst e
    exact parse_pat_loop_full buf fuel p r tbl _ (by push_cast at hr; omega) (le_refl _)
  | succ m ih =>
    intro fuel p r tbl n hn hr hf
    obtain ⟨fuel, rfl⟩ : ∃ f, fuel = f + 1 := ⟨fuel - 1, by omega⟩
    have h : r > 3 := by push_cast at hr; omega
    have hlt : n < tbl.length := by omega
    unfold parse_pat_loop
    simp only [h, if_true, hlt]
    rw [ih fuel (p + 4) (r - 4) _ (n + 1) (by simp; omega) (by push_cast at hr ⊢; omega)
      (by omega)]
    simp

/-- On an aggregate that holds no entry `parse_pat` stores the records of the
payload, one per 4 bytes. -/
theorem parse_pat_fresh (sz : Nat) (d : dvb_descriptors) (buf : List uchar) (p : Nat)
    (r : Int) (id version : Nat) (hsz : 0 < sz) (hr : 0 ≤ r)
    (hn : d.pat_table.pid_table_len = 0) :
    parse_pat sz d buf p r id version =
      .ok ({ pat_table := { ts_id := id, version := version,
                            pid_table := pat_records buf p (r.toNat / 4),
                            pid_table_len := r.toNat / 4 } },
           r - 4 * ((r.toNat / 4 : Nat) : Int)) := by
  unfold parse_pat
  have h := parse_pat_loop_ok buf (r.toNat / 4) r.toNat p r []
    (realloc_entries d.pat_table.pid_table (pat_capacity sz r))
    (by omega) (by omega) (Nat.div_le_self _ _)
    (by rw [realloc_entries_length, pat_capacity_eq sz r hsz hr])
  have hd : List.drop (r.toNat / 4)
      (realloc_entries d.pat_table.pid_table (pat_capacity sz r)) = [] := by
    apply List.drop_eq_nil_of_le
    rw [realloc_entries_length, pat_capacity_eq sz r hsz hr]
  simp only [List.nil_append, List.length_nil, Nat.zero_add, hd, List.append_nil] at h
  simp only [hn, h]

/-- On an aggregate that holds an entry `parse_pat` with at least one record
to store runs over the end of the block it has just allocated. -/
theorem parse_pat_overflow (sz : Nat) (d : dvb_descriptors) (buf : List uchar) (p : Nat)
    (r : Int) (id version : Nat) (hsz : 0 < sz) (hr : 4 ≤ r)
    (hn : 1 ≤ d.pat_table.pid_table_len) :
    parse_pat sz d buf p r id version =
      .error (fault.heap_overflow (max d.pat_table.pid_table_len (r.toNat / 4))
        (r.toNat / 4)) := by
  have hcap : (realloc_entries d.pat_table.pid_table (pat_capacity sz r)).length
      = r.toNat / 4 := by
    rw [realloc_entries_length, pat_capacity_eq sz r hsz (by omega)]
  obtain ⟨f, hf⟩ : ∃ f, r.toNat = f + 1 := ⟨r.toNat - 1, by omega⟩
  unfold parse_pat
  by_cases hc : r.toNat / 4 ≤ d.pat_table.pid_table_len
  · have h := parse_pat_loop_full buf f p r
      (realloc_entries d.pat_table.pid_table (pat_capacity sz r))
      d.pat_table.pid_table_len (by omega) (by rw [hcap]; exact hc)
    rw [← hf] at h
    simp only [h, hcap, max_eq_left hc]
  · have h := parse_pat_loop_overflow buf (r.toNat / 4 - d.pat_table.pid_table_len)
      r.toNat p r (realloc_entries d.pat_table.pid_table (pat_capacity sz r))
      d.pat_table.pid_table_len (by rw [hcap]; omega) (by omega) (by omega)
    simp only [h, hcap, max_eq_right (le_of_not_le hc)]

/-! ## The iteration budgets are never used up -/

theorem parse_pat_loop_fuel (buf : List uchar) :
    ∀ (fuel p : Nat) (r : Int) (tbl : List pid_table) (n : Nat), r ≤ fuel →
      parse_pat_loop buf fuel p r tbl n ≠ .error fault.out_of_fuel := by
  intro fuel
  induction fuel with
  | zero =>
    intro p r tbl n h
    have h3 : ¬ r > 3 := by push_cast at h; omega
    unfold parse_pat_loop
    simp [h3]
  | succ fuel ih =>
    intro p r tbl n h
    unfold parse_pat_loop
    by_cases h3 : r > 3
    · by_cases hn : n < tbl.length
      · simp only [h3, if_true, hn]
        exact ih _ _ _ _ (by push_cast at h; omega)
      · simp [h3, hn]
    · simp [h3]

theorem parse_pat_fuel (sz : Nat) (d : dvb_descriptors) (buf : List uchar) (p : Nat)
    (r : Int) (id version : Nat) :
    parse_pat sz d buf p r id version ≠ .error fault.out_of_fuel := by
  have h := parse_pat_loop_fuel buf r.toNat p r
    (realloc_entries d.pat_table.pid_table (pat_capacity sz r)) d.pat_table.pid_table_len
    (Int.self_le_toNat r)
  unfold parse_pat
  simp only []
  cases hl : parse_pat_loop buf r.toNat p r
      (realloc_entries d.pat_table.pid_table (pat_capacity sz r))
      d.pat_table.pid_table_len with
  | error f =>
    rw [hl] at h
    simpa using h
  | ok x => simp

/-! ## `parse_pat` -/

/-- With fewer than 4 bytes left `parse_pat` stores nothing. -/
theorem parse_pat_short (sz : Nat) (d : dvb_descriptors) (buf : List uchar) (p : Nat)
    (r : Int) (id version : Nat) (hr : r < 4) :
    parse_pat sz d buf p r id version =
      .ok ({ pat_table := { ts_id := id, version := version,
                            pid_table := realloc_entries d.pat_table.pid_table
                              (pat_capacity sz r),
                            pid_table_len := d.pat_table.pid_table_len } }, r) := by
  have h : ¬ r > 3 := by omega
  unfold parse_pat parse_pat_loop
  simp [h]

/-- The calls of `parse_pat` that stay inside the block: when the aggregate
holds no entry yet or the payload holds no complete record, `parse_pat`
returns with `r / 4` entries appended (`pid_table_len` grows by `r / 4`), the
`i`-th appended entry has
`program_number = (payload[4i] << 8) | payload[4i+1]` and
`pid = ((payload[4i+2] << 8) | payload[4i+3]) & 0x1FFF`, its other fields
zeroed, and `*section_length` is left at `r % 4`. -/
theorem parse_pat_appends_records (sz : Nat) (d : dvb_descriptors) (buf : List uchar)
    (p : Nat) (r : Int) (id version : Nat) (hsz : 0 < sz) (hr : 0 ≤ r)
    (hn : d.pat_table.pid_table_len = 0 ∨ r < 4) :
    ∃ d' : dvb_descriptors,
      parse_pat sz d buf p r id version = .ok (d', r % 4) ∧
      d'.pat_table.pid_table_len = d.pat_table.pid_table_len + r.toNat / 4 ∧
      ∀ i, i < r.toNat / 4 →
        d'.pat_table.pid_table[d.pat_table.pid_table_len + i]? =
          some (pat_entry ((byte buf (p + 4 * i) <<< 8) ||| byte buf (p + 4 * i + 1))
            (((byte buf (p + 4 * i + 2) <<< 8) ||| byte buf (p + 4 * i + 3)) &&& 0x1FFF)) := by
  rcases hn with hn | hn
  · refine ⟨{ pat_table := { ts_id := id, version := version,
                              pid_table := pat_records buf p (r.toNat / 4),
                              pid_table_len := r.toNat / 4 } }, ?_, ?_, ?_⟩
    · rw [parse_pat_fresh sz d buf p r id version hsz hr hn]
      have e : r - 4 * ((r.toNat / 4 : Nat) : Int) = r % 4 := by omega
      rw [e]
    · rw [hn, Nat.zero_add]
    · intro i hi
      rw [hn, Nat.zero_add]
      show (pat_records buf p (r.toNat / 4))[i]? = _
      rw [pat_records_get buf _ p i hi, mask13 _ _ (byte_lt buf _)]
  · refine ⟨{ pat_table := { ts_id := id, version := version,
                              pid_table := realloc_entries d.pat_table.pid_table
                                (pat_capacity sz r),
                              pid_table_len := d.pat_table.pid_table_len } }, ?_, ?_, ?_⟩
    · rw [parse_pat_short sz d buf p r id version hn]
      have e : r % 4 = r := by omega
      rw [e]
    · have e : r.toNat / 4 = 0 := by omega
      rw [e]
      rfl
    · intro i hi
      omega

/-- An instance of `parse_pat_appends_records`: a fresh aggregate, two records
and one trailing byte. -/
theorem parse_pat_appends_records_witness :
    (0 < 40 ∧ (0 : Int) ≤ 9 ∧
      (calloc_desc.pat_table.pid_table_len = 0 ∨ (9 : Int) < 4)) ∧
    ∃ d' : dvb_descriptors,
      parse_pat 40 calloc_desc [0x00, 0x11, 0xE1, 0x00, 0x00, 0x12, 0xE2, 0x00, 0xAA] 0 9 7 3
          = .ok (d', (9 : Int) % 4) ∧
      d'.pat_table.pid_table_len =
        calloc_desc.pat_table.pid_table_len + (9 : Int).toNat / 4 ∧
      ∀ i, i < (9 : Int).toNat / 4 →
        d'.pat_table.pid_table[calloc_desc.pat_table.pid_table_len + i]? =
          some (pat_entry
            ((byte [0x00, 0x11, 0xE1, 0x00, 0x00, 0x12, 0xE2, 0x00, 0xAA] (0 + 4 * i) <<< 8) |||
              byte [0x00, 0x11, 0xE1, 0x00, 0x00, 0x12, 0xE2, 0x00, 0xAA] (0 + 4 * i + 1))
            (((byte [0x00, 0x11, 0xE1, 0x00, 0x00, 0x12, 0xE2, 0x00, 0xAA] (0 + 4 * i + 2) <<< 8) |||
              byte [0x00, 0x11, 0xE1, 0x00, 0x00, 0x12, 0xE2, 0x00, 0xAA] (0 + 4 * i + 3))
                &&& 0x1FFF)) :=
  ⟨⟨by decide, by decide, Or.inl rfl⟩,
    parse_pat_appends_records 40 calloc_desc
      [0x00, 0x11, 0xE1, 0x00, 0x00, 0x12, 0xE2, 0x00, 0xAA] 0 9 7 3
      (by decide) (by decide) (Or.inl rfl)⟩

/-- C1: `parse_pat` does not append for every call.  On an aggregate that
already holds one entry, a payload of one record and one trailing byte
(remaining length 5) makes it reallocate `pid_table` to room for `5 / 4 = 1`
entry and store the record at index 1, outside the block, whatever the
payload, the stored entry and the struct size are; the same payload decoded
into the empty aggregate gives the one entry of the claim and leaves a
remaining length of 1. -/
theorem parse_pat_append_overflows (sz ts v : Nat) (e : pid_table) (buf : List uchar)
    (p id version : Nat) :
    parse_pat (sz + 1)
        { pat_table := { ts_id := ts, version := v, pid_table := [e], pid_table_len := 1 } }
        buf p 5 id version =
      .error (fault.heap_overflow 1 1) ∧
    parse_pat 40
        { pat_table := { ts_id := 1, version := 0, pid_table := [pat_entry 0x0011 0x0100],
                         pid_table_len := 1 } }
        [0x00, 0x12, 0xE2, 0x00, 0xDE] 0 5 1 0 =
      .error (fault.heap_overflow 1 1) ∧
    parse_pat 40 calloc_desc [0x00, 0x12, 0xE2, 0x00, 0xDE] 0 5 1 0 =
      .ok ({ pat_table := { ts_id := 1, version := 0, pid_table := [pat_entry 0x0012 0x0200],
                            pid_table_len := 1 } }, 1) := by
  refine ⟨?_, by decide, by decide⟩
  rw [parse_pat_overflow (sz + 1) _ buf p 5 id version (Nat.succ_pos sz) (by decide)
    (le_refl 1)]
  rfl

/-- C3: the block that `parse_pat` allocates has room for `r / 4` entries, not
for `n + r / 4`: on every aggregate that holds `n + 1` entries and for every
remaining length `r + 4`, the loop stores at index `max (n + 1) ((r + 4) / 4)`,
which is outside the block of `(r + 4) / 4` entries. -/
theorem parse_pat_block_too_small (sz n r ts v : Nat) (block : List pid_table)
    (buf : List uchar) (p id version : Nat) :
    (∀ r' : Nat, pat_capacity (sz + 1) (r' : Int) = r' / 4) ∧
    parse_pat (sz + 1)
        { pat_table := { ts_id := ts, version := v, pid_table := block,
                         pid_table_len := n + 1 } }
        buf p ((r : Int) + 4) id version =
      .error (fault.heap_overflow (max (n + 1) ((r + 4) / 4)) ((r + 4) / 4)) := by
  constructor
  · intro r'
    rw [pat_capacity_eq (sz + 1) (r' : Int) (Nat.succ_pos sz) (Int.natCast_nonneg r')]
    simp
  · have h := parse_pat_overflow (sz + 1)
      { pat_table := { ts_id := ts, version := v, pid_table := block,
                       pid_table_len := n + 1 } }
      buf p ((r : Int) + 4) id version (Nat.succ_pos sz) (by omega) (by simp)
    have e : ((r : Int) + 4).toNat = r + 4 := by omega
    rw [h, e]

/-- C9: decoding the same two records twice into one aggregate: the first call
stores them, the second call stores at index 2 of a block of 2 entries. -/
theorem parse_pat_twice_overflows :
    parse_pat 40 calloc_desc [0x00, 0x00, 0x01, 0x10, 0x00, 0x01, 0x02, 0x20] 0 8 0 0 =
      .ok ({ pat_table := { ts_id := 0, version := 0,
                            pid_table := [pat_entry 0 0x0110, pat_entry 1 0x0220],
                            pid_table_len := 2 } }, 0) ∧
    parse_pat 40
        { pat_table := { ts_id := 0, version := 0,
                         pid_table := [pat_entry 0 0x0110, pat_entry 1 0x0220],
                         pid_table_len := 2 } }
        [0x00, 0x00, 0x01, 0x10, 0x00, 0x01, 0x02, 0x20] 0 8 0 0 =
      .error (fault.heap_overflow 2 2) := by
  decide

/-- C7, as stated, fails: decoding `00 00 01 10 00 01 02 20` into the empty
aggregate does not give the pids `0x0010` and `0x0020`. -/
theorem scenario_a_pids_refuted :
    ¬ ∃ (d : dvb_descriptors) (sl : Int),
      parse_pat 40 calloc_desc [0x00, 0x00, 0x01, 0x10, 0x00, 0x01, 0x02, 0x20] 0 8 0 0
          = .ok (d, sl) ∧
      d.pat_table.pid_table = [pat_entry 0 0x0010, pat_entry 1 0x0020] := by
  rintro ⟨d, sl, h, hd⟩
  have e : parse_pat 40 calloc_desc [0x00, 0x00, 0x01, 0x10, 0x00, 0x01, 0x02, 0x20] 0 8 0 0
      = .ok ({ pat_table := { ts_id := 0, version := 0,
                              pid_table := [pat_entry 0 0x0110, pat_entry 1 0x0220],
                              pid_table_len := 2 } }, 0) := by decide
  rw [e] at h
  injection h with h
  injection h with h1 _
  subst h1
  revert hd
  decide

/-- C7, amended: decoding `00 00 01 10 00 01 02 20` with remaining length 8
into the empty aggregate gives exactly two entries, program 0 with pid
`0x0110` and program 1 with pid `0x0220`, in that order. -/
theorem pat_scenario_a (sz id version : Nat) :
    parse_pat (sz + 1) calloc_desc [0x00, 0x00, 0x01, 0x10, 0x00, 0x01, 0x02, 0x20] 0 8
        id version =
      .ok ({ pat_table := { ts_id := id, version := version,
                            pid_table := [pat_entry 0 0x0110, pat_entry 1 0x0220],
                            pid_table_len := 2 } }, 0) := by
  rw [parse_pat_fresh (sz + 1) calloc_desc _ 0 8 id version (Nat.succ_pos sz) (by decide) rfl]
  rfl

/-- C6, as stated, fails: the records `00 01 E1 00` and `00 01 01 00` differ in
their third byte and decode to the same `(program_number, pid)` pair. -/
theorem pat_record_not_injective :
    parse_pat 40 calloc_desc [0x00, 0x01, 0xE1, 0x00] 0 4 0 0 =
      parse_pat 40 calloc_desc [0x00, 0x01, 0x01, 0x00] 0 4 0 0 ∧
    ([0x00, 0x01, 0xE1, 0x00] : List uchar) ≠ [0x00, 0x01, 0x01, 0x00] := by
  decide

/-- C6, amended: two 4-byte PAT records decode to the same
`(program_number, pid)` pair exactly when they agree on bytes 0, 1 and 3 and
on the low five bits of byte 2; the top three bits of byte 2 are dropped by
the mask and cannot be recovered. -/
theorem pat_record_eq_iff (sz id version : Nat) (a0 a1 a2 a3 b0 b1 b2 b3 : uchar) :
    parse_pat (sz + 1) calloc_desc [a0, a1, a2, a3] 0 4 id version =
        parse_pat (sz + 1) calloc_desc [b0, b1, b2, b3] 0 4 id version ↔
      a0 = b0 ∧ a1 = b1 ∧ a2.val % 32 = b2.val % 32 ∧ a3 = b3 := by
  rw [parse_pat_fresh (sz + 1) calloc_desc _ 0 4 id version (Nat.succ_pos sz) (by decide) rfl,
    parse_pat_fresh (sz + 1) calloc_desc _ 0 4 id version (Nat.succ_pos sz) (by decide) rfl]
  have ha : (4 : Int).toNat / 4 = 1 := by decide
  have m : ∀ x : Nat, x &&& 0x1f = x % 32 := fun x => Nat.and_pow_two_sub_one_eq_mod x 5
  simp only [ha, pat_records, pat_entry, byte, List.getD_cons_zero, List.getD_cons_succ,
    Nat.zero_add, m]
  rw [shl8_or _ _ a1.isLt, shl8_or _ _ b1.isLt, shl8_or _ _ a3.isLt, shl8_or _ _ b3.isLt]
  have h0 := a0.isLt; have h1 := a1.isLt; have h2 := a2.isLt; have h3 := a3.isLt
  have g0 := b0.isLt; have g1 := b1.isLt; have g2 := b2.isLt; have g3 := b3.isLt
  constructor
  · intro h
    simp only [Except.ok.injEq, Prod.mk.injEq, dvb_descriptors.mk.injEq, pat_table.mk.injEq,
      List.cons.injEq, pid_table.mk.injEq, and_true, true_and] at h
    obtain ⟨h, h'⟩ := h
    refine ⟨Fin.ext ?_, Fin.ext ?_, ?_, Fin.ext ?_⟩ <;> omega
  · rintro ⟨r0, r1, r2, r3⟩
    subst r0 r1 r3
    rw [r2]

/-! ## `parse_pmt` -/

/-- The loop of `parse_pmt` handles the records of `es_records` in order and
stops; a budget of `*section_length` rounds is never used up. -/
theorem parse_pmt_loop_eq (buf : List uchar) :
    ∀ (fuel p : Nat) (r : Int) (e : pid_table), r ≤ fuel →
      ∃ r' : Int, parse_pmt_loop buf fuel p r e =
        .ok ((es_records buf p r).foldl (fun e s => store_stream s.1 s.2 e) e, r') := by
  intro fuel
  induction fuel with
  | zero =>
    intro p r e h
    have h5 : ¬ r ≥ 5 := by push_cast at h; omega
    have h5' : ¬ 5 ≤ r := h5
    refine ⟨r, ?_⟩
    unfold parse_pmt_loop
    rw [es_records]
    simp [h5, h5']
  | succ fuel ih =>
    intro p r e h
    by_cases h5 : r ≥ 5
    · have h5' : 5 ≤ r := h5
      unfold parse_pmt_loop
      rw [es_records]
      simp only [h5, h5', if_true, List.foldl_cons]
      rw [mask12 _ _ (byte_lt buf _), mask13 _ _ (byte_lt buf _)]
      exact ih _ _ _ (by push_cast at h ⊢; omega)
    · have h5' : ¬ 5 ≤ r := h5
      refine ⟨r, ?_⟩
      unfold parse_pmt_loop
      rw [es_records]
      simp [h5, h5']

/-- What storing a run of records does to an entry. -/
theorem foldl_store_stream (l : List (Nat × Nat)) :
    ∀ e : pid_table,
      l.foldl (fun e s => store_stream s.1 s.2 e) e =
        { program_number := e.program_number, pid := e.pid, pmt_table := e.pmt_table,
          video_pid := e.video_pid ++ (l.filter (fun s => is_video s.1)).map Prod.snd,
          audio_pid := e.audio_pid ++ (l.filter (fun s => is_audio s.1)).map Prod.snd } := by
  induction l with
  | nil => intro e; simp
  | cons s l ih =>
    intro e
    rw [List.foldl_cons, ih]
    by_cases hv : s.1 = 0x01 ∨ s.1 = 0x02 ∨ s.1 = 0x10 ∨ s.1 = 0x1b
    · have h1 : is_video s.1 = true := by
        simp only [is_video, Bool.or_eq_true, beq_iff_eq]; tauto
      have h2 : is_audio s.1 = false := by
        rcases hv with h | h | h | h <;> rw [h] <;> decide
      simp [store_stream, hv, List.filter_cons, h1, h2]
    · by_cases ha : s.1 = 0x03 ∨ s.1 = 0x04 ∨ s.1 = 0x0f ∨ s.1 = 0x11 ∨ s.1 = 0x81
      · have h1 : is_video s.1 = false := by
          rcases ha with h | h | h | h | h <;> rw [h] <;> decide
        have h2 : is_audio s.1 = true := by
          simp only [is_audio, Bool.or_eq_true, beq_iff_eq]; tauto
        simp [store_stream, hv, ha, List.filter_cons, h1, h2]
      · have h1 : is_video s.1 = false := by
          rw [Bool.eq_false_iff]
          simp only [is_video, Bool.or_eq_true, beq_iff_eq, ne_eq]; tauto
        have h2 : is_audio s.1 = false := by
          rw [Bool.eq_false_iff]
          simp only [is_audio, Bool.or_eq_true, beq_iff_eq, ne_eq]; tauto
        simp [store_stream, hv, ha, List.filter_cons, h1, h2]

/-- C2: for every entry, payload and remaining length, `parse_pmt` returns; it
sets `pcr_pid = ((payload[0] << 8) | payload[1]) & 0x1FFF`, skips the 4 header
bytes and `program_info_length = ((payload[2] << 8) | payload[3]) & 0x0FFF`
descriptor bytes, and leaves `video_pid` (`audio_pid`) equal to the previous
list followed, in record order, by the 13-bit pid of every elementary-stream
record whose stream type is a video (audio) type; other records change
neither list.  On the payload of the example (type `0x02` with `E1 00`, type
`0x81` with `E1 01`, type `0x06`) video gains `0x0100` and audio `0x0101`. -/
theorem parse_pmt_classifies (e : pid_table) (buf : List uchar) (p : Nat) (r : Int)
    (id version : Nat) :
    (∃ r' : Int, parse_pmt e buf p r id version =
      .ok ({ program_number := e.program_number, pid := e.pid,
             pmt_table := { program_number := id, version := version,
                            pcr_pid := ((byte buf p <<< 8) ||| byte buf (p + 1)) &&& 0x1FFF },
             video_pid := e.video_pid ++
               ((es_records buf
                   (p + ((((byte buf (p + 2) <<< 8) ||| byte buf (p + 3)) &&& 0x0FFF) + 4))
                   (r - ((((byte buf (p + 2) <<< 8) ||| byte buf (p + 3)) &&& 0x0FFF : Nat) + 4))
                 ).filter (fun s => is_video s.1)).map Prod.snd,
             audio_pid := e.audio_pid ++
               ((es_records buf
                   (p + ((((byte buf (p + 2) <<< 8) ||| byte buf (p + 3)) &&& 0x0FFF) + 4))
                   (r - ((((byte buf (p + 2) <<< 8) ||| byte buf (p + 3)) &&& 0x0FFF : Nat) + 4))
                 ).filter (fun s => is_audio s.1)).map Prod.snd }, r')) ∧
    parse_pmt { e with video_pid := [], audio_pid := [] }
        [0xE1, 0x00, 0xF0, 0x00, 0x02, 0xE1, 0x00, 0xF0, 0x00, 0x81, 0xE1, 0x01, 0xF0, 0x00,
         0x06, 0xE1, 0x02, 0xF0, 0x00, 0xDE, 0xAD, 0xBE, 0xEF] 0 23 id version =
      .ok ({ program_number := e.program_number, pid := e.pid,
             pmt_table := { program_number := id, version := version, pcr_pid := 0x0100 },
             video_pid := [0x0100], audio_pid := [0x0101] }, 4) := by
  constructor
  · unfold parse_pmt
    simp only []
    rw [mask12 _ _ (byte_lt buf _), mask13 _ _ (byte_lt buf _)]
    obtain ⟨r', h⟩ := parse_pmt_loop_eq buf
      (r - ((((byte buf (p + 2) <<< 8) ||| byte buf (p + 3)) &&& 0x0FFF : Nat) + 4)).toNat
      (p + ((((byte buf (p + 2) <<< 8) ||| byte buf (p + 3)) &&& 0x0FFF) + 4))
      (r - ((((byte buf (p + 2) <<< 8) ||| byte buf (p + 3)) &&& 0x0FFF : Nat) + 4))
      { e with pmt_table := { program_number := id, version := version,
                              pcr_pid := ((byte buf p <<< 8) ||| byte buf (p + 1)) &&& 0x1FFF } }
      (Int.self_le_toNat _)
    refine ⟨r', ?_⟩
    rw [foldl_store_stream] at h
    exact h
  · rfl

/-! ## `read_section` -/

theorem byte_append_left (bytes tail : List uchar) (i : Nat) (h : i < bytes.length) :
    byte (bytes ++ tail) i = byte bytes i := by
  unfold byte
  rw [List.getD_append _ _ _ _ h]

theorem section_length_field_append (bytes tail : List uchar) (h : 3 ≤ bytes.length) :
    section_length_field (bytes ++ tail) = section_length_field bytes := by
  unfold section_length_field
  rw [byte_append_left _ _ 1 (by omega), byte_append_left _ _ 2 (by omega)]

/-- A delivery that fails the framing test is not decoded: the round goes to
the test of `next` with the aggregate as it was. -/
theorem read_loop_malformed (sz : Nat) (ptr : Option Nat) (bytes : List uchar)
    (rest : List delivery) (next : Bool) (d : dvb_descriptors) (buf : List uchar)
    (h : bytes.length < 3 ∨ (bytes.length : Int) ≠ section_length_field bytes + 3) :
    read_loop sz ptr (.data bytes :: rest) next d buf =
      if bytes.length = 0 then
        .ok { ret := -1, dvb_desc := d, feed := rest, closed := false }
      else if next then read_loop sz ptr rest true d (bytes ++ buf.drop bytes.length)
      else .ok { ret := 0, dvb_desc := d, feed := rest, closed := false } := by
  have hf : framing_ok (bytes ++ buf.drop bytes.length) bytes.length = false := by
    unfold framing_ok
    rcases Nat.lt_or_ge bytes.length 3 with h3 | h3
    · simp [h3]
    · rcases h with h | h
      · omega
      · rw [section_length_field_append _ _ h3]
        simp [h]
  rw [read_loop]
  by_cases h0 : bytes.length = 0
  · simp [h0]
  · cases next <;> simp [h0, hf]

/-- C10: in any round of the loop of `read_section`, a delivery that has fewer
than 3 bytes or whose byte count differs from its `section_length` field plus
3 is not decoded, whatever its table id: the loop goes on (when `next` is set)
or the call returns (when it is not) with the very aggregate `d` it had before
the delivery. -/
theorem read_section_discards_malformed (sz : Nat) (ptr : Option Nat) (bytes : List uchar)
    (rest : List delivery) (next : Bool) (d : dvb_descriptors) (buf : List uchar)
    (h : bytes.length < 3 ∨ (bytes.length : Int) ≠ section_length_field bytes + 3) :
    read_loop sz ptr (.data bytes :: rest) next d buf =
      if bytes.length = 0 then
        .ok { ret := -1, dvb_desc := d, feed := rest, closed := false }
      else if next then read_loop sz ptr rest true d (bytes ++ buf.drop bytes.length)
      else .ok { ret := 0, dvb_desc := d, feed := rest, closed := false } :=
  read_loop_malformed sz ptr bytes rest next d buf h

/-- Witness for C10: a 12-byte PAT delivery that announces 13 + 3 bytes,
arriving while `next` is set and with one entry already stored. -/
theorem read_section_discards_malformed_witness :
    ((([0x00, 0xB0, 0x0D, 0x00, 0x01, 0xC1, 0x00, 0x00, 0x00, 0x11, 0xE1, 0x00] :
          List uchar).length < 3) ∨
      ((([0x00, 0xB0, 0x0D, 0x00, 0x01, 0xC1, 0x00, 0x00, 0x00, 0x11, 0xE1, 0x00] :
          List uchar).length : Int) ≠
        section_length_field
          [0x00, 0xB0, 0x0D, 0x00, 0x01, 0xC1, 0x00, 0x00, 0x00, 0x11, 0xE1, 0x00] + 3)) ∧
    read_loop 40 none
        (.data [0x00, 0xB0, 0x0D, 0x00, 0x01, 0xC1, 0x00, 0x00, 0x00, 0x11, 0xE1, 0x00] :: [])
        true
        { pat_table := { ts_id := 1, version := 0, pid_table := [pat_entry 0x11 0x0100],
                         pid_table_len := 1 } } [] =
      if ([0x00, 0xB0, 0x0D, 0x00, 0x01, 0xC1, 0x00, 0x00, 0x00, 0x11, 0xE1, 0x00] :
          List uchar).length = 0 then
        .ok { ret := -1,
              dvb_desc := { pat_table := { ts_id := 1, version := 0,
                                           pid_table := [pat_entry 0x11 0x0100],
                                           pid_table_len := 1 } },
              feed := [], closed := false }
      else if true then
        read_loop 40 none [] true
          { pat_table := { ts_id := 1, version := 0, pid_table := [pat_entry 0x11 0x0100],
                           pid_table_len := 1 } }
          ([0x00, 0xB0, 0x0D, 0x00, 0x01, 0xC1, 0x00, 0x00, 0x00, 0x11, 0xE1, 0x00] ++
            ([] : List uchar).drop
              ([0x00, 0xB0, 0x0D, 0x00, 0x01, 0xC1, 0x00, 0x00, 0x00, 0x11, 0xE1, 0x00] :
                List uchar).length)
      else
        .ok { ret := 0,
              dvb_desc := { pat_table := { ts_id := 1, version := 0,
                                           pid_table := [pat_entry 0x11 0x0100],
                                           pid_table_len := 1 } },
              feed := [], closed := false } :=
  ⟨Or.inr (by decide),
    read_section_discards_malformed 40 none
      [0x00, 0xB0, 0x0D, 0x00, 0x01, 0xC1, 0x00, 0x00, 0x00, 0x11, 0xE1, 0x00] [] true
      { pat_table := { ts_id := 1, version := 0, pid_table := [pat_entry 0x11 0x0100],
                       pid_table_len := 1 } } [] (Or.inr (by decide))⟩

/-- C4: when the first delivery of a call has two bytes, `read_section` does
not wait for the next delivery: `continue` leads to the test `while (next)`
with `next` still 0, and the call returns 0 with the aggregate untouched and
every later delivery unread.  So the well-formed PAT section that follows the
2-byte delivery is not decoded, while the same section alone is. -/
theorem read_section_stops_at_malformed (sz : Nat) (d : dvb_descriptors) (pid table : Nat)
    (ptr : Option Nat) (stack : List uchar) (b0 b1 : uchar) (rest : List delivery) :
    read_section sz
        (fun _ _ => { ioctl_ok := true, stack := stack, feed := .data [b0, b1] :: rest })
        false d pid table ptr =
      .ok { ret := 0, dvb_desc := d, feed := rest, closed := false } ∧
    read_section 40
        (fun _ _ => { ioctl_ok := true, stack := [], feed :=
          [.data [0x00, 0xB0],
           .data [0x00, 0xB0, 0x0D, 0x00, 0x01, 0xC1, 0x00, 0x00, 0x00, 0x11, 0xE1, 0x00,
                  0xDE, 0xAD, 0xBE, 0xEF]] })
        false calloc_desc 0 0 none =
      .ok { ret := 0, dvb_desc := calloc_desc,
            feed := [.data [0x00, 0xB0, 0x0D, 0x00, 0x01, 0xC1, 0x00, 0x00, 0x00, 0x11, 0xE1,
                            0x00, 0xDE, 0xAD, 0xBE, 0xEF]],
            closed := false } ∧
    read_section 40
        (fun _ _ => { ioctl_ok := true, stack := [], feed :=
          [.data [0x00, 0xB0, 0x0D, 0x00, 0x01, 0xC1, 0x00, 0x00, 0x00, 0x11, 0xE1, 0x00,
                  0xDE, 0xAD, 0xBE, 0xEF]] })
        false calloc_desc 0 0 none =
      .ok { ret := 0,
            dvb_desc := { pat_table := { ts_id := 1, version := 0,
                                         pid_table := [pat_entry 0x11 0x0100],
                                         pid_table_len := 1 } },
            feed := [], closed := false } := by
  refine ⟨?_, by decide, by decide⟩
  unfold read_section
  simp only [Bool.not_true, Bool.or_self, Bool.false_eq_true, if_false]
  rw [read_loop_malformed sz ptr [b0, b1] rest false d stack (Or.inl (by simp))]
  simp

/-- C8: a PAT delivered as section 0 of 1 followed by section 1 of 1, one
record each: the first section is decoded and the loop goes on, and while
decoding the second section `parse_pat` stores at index 1 of a block that has
room for 1 entry. -/
theorem read_section_two_sections_overflow :
    read_section 40
        (fun _ _ => { ioctl_ok := true, stack := [], feed :=
          [.data [0x00, 0xB0, 0x0D, 0x00, 0x01, 0xC1, 0x00, 0x01, 0x00, 0x11, 0xE1, 0x00,
                  0xDE, 0xAD, 0xBE, 0xEF],
           .data [0x00, 0xB0, 0x0D, 0x00, 0x01, 0xC1, 0x01, 0x01, 0x00, 0x12, 0xE2, 0x00,
                  0xDE, 0xAD, 0xBE, 0xEF]] })
        false calloc_desc 0 0 none =
      .error (fault.heap_overflow 1 1) := by
  decide

/-! ## `get_dvb_ts_tables` -/

/-- A wait loop that fails before any data is taken makes the loop of
`read_section` return -1 with the aggregate as it was. -/
theorem read_loop_fails_at_once (sz : Nat) (ptr : Option Nat) :
    ∀ (feed : List delivery) (next : Bool) (d : dvb_descriptors) (buf : List uchar),
      fails_at_once feed = true →
      ∃ (c : Bool) (rest : List delivery),
        read_loop sz ptr feed next d buf =
          .ok { ret := -1, dvb_desc := d, feed := rest, closed := c } := by
  intro feed
  induction feed with
  | nil => intro next d buf _; exact ⟨false, [], by rw [read_loop]⟩
  | cons x rest ih =>
    intro next d buf h
    cases x with
    | timeout => exact ⟨false, rest, by rw [read_loop]⟩
    | overrun =>
      rw [read_loop]
      exact ih next d buf (by simpa [fails_at_once] using h)
    | io_error => exact ⟨true, rest, by rw [read_loop]⟩
    | data bytes =>
      have hb : bytes.length = 0 := by
        simp only [fails_at_once, List.isEmpty_iff] at h
        simp [h]
      exact ⟨false, rest, by rw [read_loop]; simp [hb]⟩

/-- Sections of a table other than PAT and PMT are accepted without any
decoding: the loop of `read_section` returns with the aggregate as it was. -/
theorem read_loop_other_table (sz : Nat) (ptr : Option Nat) :
    ∀ (feed : List delivery) (next : Bool) (d : dvb_descriptors) (buf : List uchar),
      (∀ bytes : List uchar, delivery.data bytes ∈ feed → bytes ≠ [] →
        byte bytes 0 ≠ 0x00 ∧ byte bytes 0 ≠ 0x02) →
      ∃ r : read_result, read_loop sz ptr feed next d buf = .ok r ∧ r.dvb_desc = d := by
  intro feed
  induction feed with
  | nil => intro next d buf _; exact ⟨_, by rw [read_loop], rfl⟩
  | cons x rest ih =>
    intro next d buf h
    have hrest : ∀ bytes : List uchar, delivery.data bytes ∈ rest → bytes ≠ [] →
        byte bytes 0 ≠ 0x00 ∧ byte bytes 0 ≠ 0x02 :=
      fun bytes hm hne => h bytes (List.mem_cons_of_mem _ hm) hne
    cases x with
    | timeout => exact ⟨_, by rw [read_loop], rfl⟩
    | overrun =>
      rw [read_loop]
      exact ih next d buf hrest
    | io_error => exact ⟨_, by rw [read_loop], rfl⟩
    | data bytes =>
      rw [read_loop]
      by_cases h0 : bytes.length = 0
      · exact ⟨{ ret := -1, dvb_desc := d, feed := rest, closed := false },
          by simp [h0], rfl⟩
      · have hne : bytes ≠ [] := by
          intro e; apply h0; rw [e]; rfl
        obtain ⟨t0, t2⟩ := h bytes (List.mem_cons_self _ _) hne
        have hb : byte (bytes ++ buf.drop bytes.length) 0 = byte bytes 0 :=
          byte_append_left _ _ 0 (by omega)
        have hdec : decode_section sz ptr d (bytes ++ buf.drop bytes.length) =
            .ok (d, decide (byte (bytes ++ buf.drop bytes.length) 6 ≠
              byte (bytes ++ buf.drop bytes.length) 7)) := by
          unfold decode_section
          simp only [hb, t0, t2, if_false]
        simp only [h0, if_false, hdec]
        by_cases hf : framing_ok (bytes ++ buf.drop bytes.length) bytes.length = true
        · simp only [hf, if_true]
          by_cases hn : decide (byte (bytes ++ buf.drop bytes.length) 6 ≠
              byte (bytes ++ buf.drop bytes.length) 7) = true
          · simp only [hn, if_true]
            exact ih _ d _ hrest
          · simp only [hn]
            exact ⟨_, rfl, rfl⟩
        · simp only [hf]
          by_cases hn : next = true
          · simp only [hn, if_true]
            exact ih _ d _ hrest
          · simp only [hn]
            exact ⟨_, rfl, rfl⟩

/-- A read for a table other than PAT and PMT on a demux that honours the
filter changes nothing in the aggregate, whatever it returns. -/
theorem call_read_section_other_table (sz : Nat) (dev : device) (st : scan_state)
    (pid table : Nat) (ptr : Option Nat) (hf : respects_filter dev)
    (h0 : table ≠ 0x00) (h2 : table ≠ 0x02) :
    ∃ c : Bool, call_read_section sz dev st pid table ptr =
      .ok { dvb_desc := st.dvb_desc, fd_closed := c, calls := st.calls + 1,
            reads := st.reads ++ [(pid, table, ptr)] } := by
  unfold call_read_section read_section
  by_cases hc : (st.fd_closed || !(dev.sessions st.calls pid table).ioctl_ok) = true
  · simp only [hc, if_true]
    exact ⟨_, rfl⟩
  · rw [Bool.not_eq_true] at hc
    simp only [hc]
    obtain ⟨r, hr, hd⟩ := read_loop_other_table sz ptr (dev.sessions st.calls pid table).feed
      false st.dvb_desc (dev.sessions st.calls pid table).stack
      (fun bytes hm hne => by
        rw [hf st.calls pid table bytes hm hne]
        exact ⟨h0, h2⟩)
    simp only [Bool.false_eq_true, if_false, hr, hd]
    exact ⟨_, rfl⟩

/-- A read that fails before any data is taken changes nothing in the
aggregate. -/
theorem call_read_section_fails (sz : Nat) (dev : device) (st : scan_state)
    (pid table : Nat) (ptr : Option Nat)
    (h : (dev.sessions st.calls pid table).ioctl_ok = false ∨
      fails_at_once (dev.sessions st.calls pid table).feed = true) :
    ∃ c : Bool, call_read_section sz dev st pid table ptr =
      .ok { dvb_desc := st.dvb_desc, fd_closed := c, calls := st.calls + 1,
            reads := st.reads ++ [(pid, table, ptr)] } := by
  unfold call_read_section read_section
  by_cases hc : (st.fd_closed || !(dev.sessions st.calls pid table).ioctl_ok) = true
  · simp only [hc, if_true]
    exact ⟨_, rfl⟩
  · rw [Bool.not_eq_true] at hc
    simp only [hc]
    have hfeed : fails_at_once (dev.sessions st.calls pid table).feed = true := by
      rcases h with h | h
      · rw [h] at hc; simp at hc
      · exact h
    obtain ⟨c, rest, hr⟩ := read_loop_fails_at_once sz ptr
      (dev.sessions st.calls pid table).feed false st.dvb_desc
      (dev.sessions st.calls pid table).stack hfeed
    simp only [Bool.false_eq_true, if_false, hr]
    exact ⟨_, rfl⟩

/-- The four probes on a demux that honours the filter leave the aggregate as
it was and are all issued. -/
theorem nit_sat_phase_reads (sz : Nat) (dev : device) (st : scan_state)
    (hf : respects_filter dev) :
    ∃ c : Bool, nit_sat_phase sz dev st =
      .ok { dvb_desc := st.dvb_desc, fd_closed := c, calls := st.calls + 4,
            reads := st.reads ++ [(0x0010, 0x40, none), (0x0010, 0x41, none),
              (0x0011, 0x42, none), (0x0011, 0x46, none)] } := by
  unfold nit_sat_phase
  obtain ⟨c1, h1⟩ := call_read_section_other_table sz dev st 0x0010 0x40 none hf
    (by decide) (by decide)
  rw [h1]
  obtain ⟨c2, h2⟩ := call_read_section_other_table sz dev
    { dvb_desc := st.dvb_desc, fd_closed := c1, calls := st.calls + 1,
      reads := st.reads ++ [(0x0010, 0x40, none)] } 0x0010 0x41 none hf
    (by decide) (by decide)
  simp only [h2]
  obtain ⟨c3, h3⟩ := call_read_section_other_table sz dev
    { dvb_desc := st.dvb_desc, fd_closed := c2, calls := st.calls + 1 + 1,
      reads := st.reads ++ [(0x0010, 0x40, none)] ++ [(0x0010, 0x41, none)] }
    0x0011 0x42 none hf (by decide) (by decide)
  simp only [h3]
  obtain ⟨c4, h4⟩ := call_read_section_other_table sz dev
    { dvb_desc := st.dvb_desc, fd_closed := c3, calls := st.calls + 1 + 1 + 1,
      reads := st.reads ++ [(0x0010, 0x40, none)] ++ [(0x0010, 0x41, none)] ++
        [(0x0011, 0x42, none)] }
    0x0011 0x46 none hf (by decide) (by decide)
  simp only [h4]
  exact ⟨c4, by simp⟩

/-- C5, as stated, fails: on a demux that never delivers anything the PAT read
returns -1, and `get_dvb_ts_tables` still issues the four NIT/SAT probes and
returns the aggregate, not NULL. -/
theorem get_dvb_ts_tables_ignores_pat_failure :
    read_section 40 (silent_device.sessions 0) false calloc_desc 0 0 none =
      .ok { ret := -1, dvb_desc := calloc_desc, feed := [], closed := false } ∧
    get_dvb_ts_tables 40 silent_device =
      .ok { result := some calloc_desc,
            reads := [(0, 0, none), (0x0010, 0x40, none), (0x0010, 0x41, none),
              (0x0011, 0x42, none), (0x0011, 0x46, none)] } := by
  decide

/-- C5, amended: if the PAT read fails before any section is taken (the ioctl
fails, no data arrives within the wait bound, or the read ends in a hard
error), `get_dvb_ts_tables` does not abort: the value returned by
`read_section` is dropped, the PMT loop finds no program, the four NIT/SAT
probes are issued on a demux that honours the filter, and the caller receives
the aggregate, which is empty. -/
theorem get_dvb_ts_tables_after_pat_failure (sz : Nat) (dev : device)
    (hopen : dev.open_ok = true) (hcalloc : dev.calloc_ok = true)
    (hpat : (dev.sessions 0 0 0).ioctl_ok = false ∨
      fails_at_once (dev.sessions 0 0 0).feed = true)
    (hf : respects_filter dev) :
    get_dvb_ts_tables sz dev =
      .ok { result := some calloc_desc,
            reads := [(0, 0, none), (0x0010, 0x40, none), (0x0010, 0x41, none),
              (0x0011, 0x42, none), (0x0011, 0x46, none)] } := by
  unfold get_dvb_ts_tables
  simp only [hopen, hcalloc, Bool.not_true, Bool.false_eq_true, if_false]
  obtain ⟨c, h⟩ := call_read_section_fails sz dev
    { dvb_desc := calloc_desc, fd_closed := false, calls := 0, reads := [] } 0 0 none hpat
  simp only [h]
  have hp : pmt_phase sz dev calloc_desc.pat_table.pid_table_len 0
      { dvb_desc := calloc_desc, fd_closed := c, calls := 0 + 1,
        reads := [] ++ [(0, 0, none)] } =
      .ok { dvb_desc := calloc_desc, fd_closed := c, calls := 0 + 1,
            reads := [] ++ [(0, 0, none)] } := by
    unfold pmt_phase
    simp [calloc_desc]
  simp only [hp]
  obtain ⟨c', h'⟩ := nit_sat_phase_reads sz dev
    { dvb_desc := calloc_desc, fd_closed := c, calls := 0 + 1,
      reads := [] ++ [(0, 0, none)] } hf
  simp only [h']
  simp

/-- Witness for C5 (amended): the silent demux. -/
theorem get_dvb_ts_tables_after_pat_failure_witness :
    (silent_device.open_ok = true ∧ silent_device.calloc_ok = true ∧
      ((silent_device.sessions 0 0 0).ioctl_ok = false ∨
        fails_at_once (silent_device.sessions 0 0 0).feed = true) ∧
      respects_filter silent_device) ∧
    get_dvb_ts_tables 7 silent_device =
      .ok { result := some calloc_desc,
            reads := [(0, 0, none), (0x0010, 0x40, none), (0x0010, 0x41, none),
              (0x0011, 0x42, none), (0x0011, 0x46, none)] } :=
  have hf : respects_filter silent_device := by
    intro k pid table bytes hm
    simp [silent_device] at hm
  ⟨⟨rfl, rfl, Or.inr rfl, hf⟩,
    get_dvb_ts_tables_after_pat_failure 7 silent_device rfl rfl (Or.inr rfl) hf⟩

/-! ## The PMT loop of `get_dvb_ts_tables` terminates -/

theorem parse_pmt_ok (e : pid_table) (buf : List uchar) (p : Nat) (r : Int)
    (id version : Nat) : ∃ x, parse_pmt e buf p r id version = .ok x := by
  unfold parse_pmt
  simp only []
  obtain ⟨r', h⟩ := parse_pmt_loop_eq buf
    (r - ((((byte buf (p + 2) &&& 0x0f) <<< 8) ||| byte buf (p + 3) : Nat) + 4)).toNat
    (p + ((((byte buf (p + 2) &&& 0x0f) <<< 8) ||| byte buf (p + 3)) + 4))
    (r - ((((byte buf (p + 2) &&& 0x0f) <<< 8) ||| byte buf (p + 3) : Nat) + 4))
    { e with pmt_table := { program_number := id, version := version,
                            pcr_pid := ((byte buf p &&& 0x1f) <<< 8) ||| byte buf (p + 1) } }
    (Int.self_le_toNat _)
  exact ⟨_, h⟩

/-- Once an entry is stored, a call of `parse_pat` that returns leaves
`pid_table_len` as it was. -/
theorem parse_pat_len (sz : Nat) (d d' : dvb_descriptors) (buf : List uchar) (p : Nat)
    (r r' : Int) (id version : Nat) (hsz : 0 < sz) (hn : 1 ≤ d.pat_table.pid_table_len)
    (h : parse_pat sz d buf p r id version = .ok (d', r')) :
    d'.pat_table.pid_table_len = d.pat_table.pid_table_len := by
  by_cases hr : 4 ≤ r
  · rw [parse_pat_overflow sz d buf p r id version hsz hr hn] at h
    cases h
  · rw [parse_pat_short sz d buf p r id version (by omega)] at h
    injection h with h
    injection h with h1 _
    rw [← h1]

/-- A section is decoded without using up a budget, and once an entry is stored
the decoding leaves `pid_table_len` as it was. -/
theorem decode_section_len (sz : Nat) (ptr : Option Nat) (d : dvb_descriptors)
    (buf : List uchar) (hsz : 0 < sz) :
    decode_section sz ptr d buf ≠ .error fault.out_of_fuel ∧
    ∀ (d' : dvb_descriptors) (nx : Bool), decode_section sz ptr d buf = .ok (d', nx) →
      1 ≤ d.pat_table.pid_table_len →
      d'.pat_table.pid_table_len = d.pat_table.pid_table_len := by
  unfold decode_section
  simp only []
  by_cases t0 : byte buf 0 = 0x00
  · rw [if_pos t0]
    cases hp : parse_pat sz d buf 8 (section_length_field buf - 8)
        ((byte buf 3 <<< 8) ||| byte buf 4) ((byte buf 5 >>> 1) &&& 0x1f) with
    | error f =>
      have hf := parse_pat_fuel sz d buf 8 (section_length_field buf - 8)
        ((byte buf 3 <<< 8) ||| byte buf 4) ((byte buf 5 >>> 1) &&& 0x1f)
      rw [hp] at hf
      constructor
      · simpa using hf
      · intro d' nx h; cases h
    | ok x =>
      obtain ⟨d1, r1⟩ := x
      constructor
      · simp
      · intro d' nx h hn
        simp only [Except.ok.injEq, Prod.mk.injEq] at h
        rw [← h.1]
        exact parse_pat_len sz d d1 buf 8 _ r1 _ _ hsz hn hp
  · by_cases t2 : byte buf 0 = 0x02
    · rw [if_neg t0, if_pos t2]
      cases ptr with
      | none =>
        constructor
        · simp
        · intro d' nx h; cases h
      | some i =>
        simp only []
        cases hg : d.pat_table.pid_table.get? i with
        | none =>
          simp only []
          constructor
          · simp
          · intro d' nx h; cases h
        | some e =>
          obtain ⟨x, hx⟩ := parse_pmt_ok e buf 8 (section_length_field buf - 8)
            ((byte buf 3 <<< 8) ||| byte buf 4) ((byte buf 5 >>> 1) &&& 0x1f)
          obtain ⟨e1, r1⟩ := x
          simp only [hx]
          constructor
          · simp
          · intro d' nx h hn
            simp only [Except.ok.injEq, Prod.mk.injEq] at h
            rw [← h.1]
    · rw [if_neg t0, if_neg t2]
      constructor
      · simp
      · intro d' nx h hn
        simp only [Except.ok.injEq, Prod.mk.injEq] at h
        rw [← h.1]

/-- The loop of `read_section` uses up no budget, and once an entry is stored
it leaves `pid_table_len` as it was. -/
theorem read_loop_len (sz : Nat) (ptr : Option Nat) (hsz : 0 < sz) :
    ∀ (feed : List delivery) (next : Bool) (d : dvb_descriptors) (buf : List uchar),
      read_loop sz ptr feed next d buf ≠ .error fault.out_of_fuel ∧
      ∀ r : read_result, read_loop sz ptr feed next d buf = .ok r →
        1 ≤ d.pat_table.pid_table_len →
        r.dvb_desc.pat_table.pid_table_len = d.pat_table.pid_table_len := by
  intro feed
  induction feed with
  | nil =>
    intro next d buf
    rw [read_loop]
    exact ⟨by simp, fun r h _ => by cases h; rfl⟩
  | cons x rest ih =>
    intro next d buf
    cases x with
    | timeout =>
      rw [read_loop]
      exact ⟨by simp, fun r h _ => by cases h; rfl⟩
    | overrun =>
      rw [read_loop]
      exact ih next d buf
    | io_error =>
      rw [read_loop]
      exact ⟨by simp, fun r h _ => by cases h; rfl⟩
    | data bytes =>
      rw [read_loop]
      simp only []
      by_cases h0 : bytes.length = 0
      · rw [if_pos h0]
        exact ⟨by simp, fun r h _ => by cases h; rfl⟩
      · rw [if_neg h0]
        by_cases hf : framing_ok (bytes ++ buf.drop bytes.length) bytes.length = true
        · rw [if_pos hf]
          obtain ⟨hd1, hd2⟩ := decode_section_len sz ptr d (bytes ++ buf.drop bytes.length) hsz
          cases hdec : decode_section sz ptr d (bytes ++ buf.drop bytes.length) with
          | error f =>
            rw [hdec] at hd1
            exact ⟨by simpa using hd1, fun r h _ => by cases h⟩
          | ok x =>
            obtain ⟨d1, nx⟩ := x
            have hl := hd2 d1 nx hdec
            simp only []
            by_cases hn : nx = true
            · rw [if_pos hn]
              obtain ⟨i1, i2⟩ := ih nx d1 (bytes ++ buf.drop bytes.length)
              refine ⟨i1, fun r h hlen => ?_⟩
              rw [i2 r h (by rw [hl hlen]; exact hlen), hl hlen]
            · rw [if_neg hn]
              exact ⟨by simp, fun r h hlen => by cases h; exact hl hlen⟩
        · rw [if_neg hf]
          by_cases hn : next = true
          · rw [if_pos hn]
            exact ih next d _
          · rw [if_neg hn]
            exact ⟨by simp, fun r h _ => by cases h; rfl⟩

/-- A call of `read_section` from `get_dvb_ts_tables` uses up no budget, and
once an entry is stored it leaves `pid_table_len` as it was. -/
theorem call_read_section_len (sz : Nat) (dev : device) (st : scan_state)
    (pid table : Nat) (ptr : Option Nat) (hsz : 0 < sz) :
    call_read_section sz dev st pid table ptr ≠ .error fault.out_of_fuel ∧
    ∀ st' : scan_state, call_read_section sz dev st pid table ptr = .ok st' →
      1 ≤ st.dvb_desc.pat_table.pid_table_len →
      st'.dvb_desc.pat_table.pid_table_len = st.dvb_desc.pat_table.pid_table_len := by
  unfold call_read_section read_section
  simp only []
  by_cases hc : (st.fd_closed || !(dev.sessions st.calls pid table).ioctl_ok) = true
  · rw [if_pos hc]
    exact ⟨by simp, fun st' h _ => by cases h; rfl⟩
  · rw [if_neg hc]
    obtain ⟨h1, h2⟩ := read_loop_len sz ptr hsz (dev.sessions st.calls pid table).feed false
      st.dvb_desc (dev.sessions st.calls pid table).stack
    cases hr : read_loop sz ptr (dev.sessions st.calls pid table).feed false st.dvb_desc
        (dev.sessions st.calls pid table).stack with
    | error f =>
      rw [hr] at h1
      exact ⟨by simpa using h1, fun st' h _ => by cases h⟩
    | ok r =>
      exact ⟨by simp, fun st' h hlen => by cases h; exact h2 r hr hlen⟩

/-- The PMT loop of `get_dvb_ts_tables` ends within `pid_table_len - i`
rounds. -/
theorem pmt_phase_fuel (sz : Nat) (dev : device) (hsz : 0 < sz) :
    ∀ (fuel i : Nat) (st : scan_state),
      st.dvb_desc.pat_table.pid_table_len ≤ i + fuel →
      pmt_phase sz dev fuel i st ≠ .error fault.out_of_fuel := by
  intro fuel
  induction fuel with
  | zero =>
    intro i st h
    have hi : ¬ i < st.dvb_desc.pat_table.pid_table_len := by omega
    unfold pmt_phase
    simp [hi]
  | succ fuel ih =>
    intro i st h
    unfold pmt_phase
    by_cases hi : i < st.dvb_desc.pat_table.pid_table_len
    · rw [if_pos hi]
      simp only []
      cases hg : st.dvb_desc.pat_table.pid_table.get? i with
      | none => simp
      | some e =>
        simp only []
        by_cases hp : e.program_number % 65536 < 0x0010 ∨ e.program_number % 65536 = 0x1fff
        · rw [if_pos hp]
          exact ih (i + 1) st (by omega)
        · rw [if_neg hp]
          obtain ⟨h1, h2⟩ := call_read_section_len sz dev st e.pid 0x02 (some i) hsz
          cases hr : call_read_section sz dev st e.pid 0x02 (some i) with
          | error f =>
            rw [hr] at h1
            simpa using h1
          | ok st' =>
            simp only []
            exact ih (i + 1) st' (by rw [h2 st' hr (by omega)]; omega)
    · rw [if_neg hi]
      simp

/-- The function `get_dvb_ts_tables` never uses up the budget of a loop: its
result is a value or a memory fault. -/
theorem get_dvb_ts_tables_fuel (sz : Nat) (dev : device) (hsz : 0 < sz) :
    get_dvb_ts_tables sz dev ≠ .error fault.out_of_fuel := by
  unfold get_dvb_ts_tables
  by_cases ho : (!dev.open_ok) = true
  · rw [if_pos ho]; simp
  · rw [if_neg ho]
    by_cases hc : (!dev.calloc_ok) = true
    · rw [if_pos hc]; simp
    · rw [if_neg hc]
      simp only []
      obtain ⟨h1, _⟩ := call_read_section_len sz dev
        { dvb_desc := calloc_desc, fd_closed := false, calls := 0, reads := [] } 0 0 none hsz
      cases hr : call_read_section sz dev
          { dvb_desc := calloc_desc, fd_closed := false, calls := 0, reads := [] } 0 0 none with
      | error f =>
        rw [hr] at h1
        simpa using h1
      | ok st =>
        simp only []
        have hp := pmt_phase_fuel sz dev hsz st.dvb_desc.pat_table.pid_table_len 0 st (by omega)
        cases hq : pmt_phase sz dev st.dvb_desc.pat_table.pid_table_len 0 st with
        | error f =>
          rw [hq] at hp
          simpa using hp
        | ok st1 =>
          simp only []
          unfold nit_sat_phase
          obtain ⟨a1, _⟩ := call_read_section_len sz dev st1 0x0010 0x40 none hsz
          cases ha : call_read_section sz dev st1 0x0010 0x40 none with
          | error f => rw [ha] at a1; simpa using a1
          | ok st2 =>
            simp only []
            obtain ⟨a2, _⟩ := call_read_section_len sz dev st2 0x0010 0x41 none hsz
            cases hb : call_read_section sz dev st2 0x0010 0x41 none with
            | error f => rw [hb] at a2; simpa using a2
            | ok st3 =>
              simp only []
              obtain ⟨a3, _⟩ := call_read_section_len sz dev st3 0x0011 0x42 none hsz
              cases hc3 : call_read_section sz dev st3 0x0011 0x42 none with
              | error f => rw [hc3] at a3; simpa using a3
              | ok st4 =>
                simp only []
                obtain ⟨a4, _⟩ := call_read_section_len sz dev st4 0x0011 0x46 none hsz
                cases hd4 : call_read_section sz dev st4 0x0011 0x46 none with
                | error f => rw [hd4] at a4; simpa using a4
                | ok st5 => simp

/-! ## Overruns -/

/-- Overrun rounds in front of a feed are retried inside the wait loop and
leave no trace. -/
theorem read_loop_overruns (sz : Nat) (ptr : Option Nat) (feed : List delivery)
    (next : Bool) (d : dvb_descriptors) (buf : List uchar) :
    ∀ k : Nat, read_loop sz ptr (List.replicate k delivery.overrun ++ feed) next d buf =
      read_loop sz ptr feed next d buf := by
  intro k
  induction k with
  | zero => rfl
  | succ k ih =>
    rw [List.replicate_succ, List.cons_append, read_loop, ih]

/-- C14: for every `k`, a demux that answers a read with `k` overrun rounds
and then the feed `feed` (a delivery and whatever follows it) makes
`read_section` return the same value and leave the same aggregate, the same
unread deliveries and the same state of `dmx_fd` as a demux that answers with
`feed` alone: the overruns are neither counted as a timeout nor reported as an
I/O fault. -/
theorem read_section_overruns_invisible (sz : Nat) (stack : List uchar)
    (feed : List delivery) (k : Nat) (d : dvb_descriptors) (pid table : Nat)
    (ptr : Option Nat) :
    read_section sz
        (fun _ _ => { ioctl_ok := true, stack := stack,
                      feed := List.replicate k delivery.overrun ++ feed })
        false d pid table ptr =
      read_section sz (fun _ _ => { ioctl_ok := true, stack := stack, feed := feed })
        false d pid table ptr := by
  unfold read_section
  simp only [Bool.not_true, Bool.or_self, Bool.false_eq_true, if_false]
  exact read_loop_overruns sz ptr feed false d stack k

/-! ## Invariants of the decoders -/

theorem pid13_lt (a b : Nat) (hb : b < 256) : ((a &&& 0x1f) <<< 8) ||| b < 0x2000 := by
  have h1 : a &&& 0x1f = a % 32 := Nat.and_pow_two_sub_one_eq_mod a 5
  rw [h1, shl8_or _ _ hb]
  omega

theorem u16_lt (a b : Nat) (ha : a < 256) (hb : b < 256) : (a <<< 8) ||| b < 0x10000 := by
  rw [shl8_or _ _ hb]
  omega

theorem version_lt (a : Nat) : (a >>> 1) &&& 0x1f < 32 := by
  have h1 : (a >>> 1) &&& 0x1f = (a >>> 1) % 32 := Nat.and_pow_two_sub_one_eq_mod _ 5
  rw [h1]
  omega

theorem entry_fits_iff (e : pid_table) :
    entry_fits e = true ↔
      e.program_number < 0x10000 ∧ e.pid < 0x2000 ∧ e.pmt_table.pcr_pid < 0x2000 ∧
      e.pmt_table.version < 32 ∧ (∀ v ∈ e.video_pid, v < 0x2000) ∧
      (∀ a ∈ e.audio_pid, a < 0x2000) := by
  simp [entry_fits, and_assoc]

theorem fields_fit_iff (d : dvb_descriptors) :
    fields_fit d = true ↔
      d.pat_table.version < 32 ∧ ∀ e ∈ d.pat_table.pid_table, entry_fits e = true := by
  simp [fields_fit]

/-- A property of entries that every store of `parse_pmt` keeps is kept by
its loop. -/
theorem parse_pmt_loop_invariant (Q : pid_table → Prop) (buf : List uchar)
    (hQ : ∀ (t pid : Nat) (e : pid_table), pid < 0x2000 → Q e → Q (store_stream t pid e)) :
    ∀ (fuel p : Nat) (r : Int) (e : pid_table) (x : pid_table × Int),
      Q e → parse_pmt_loop buf fuel p r e = .ok x → Q x.1 := by
  intro fuel
  induction fuel with
  | zero =>
    intro p r e x he h
    unfold parse_pmt_loop at h
    by_cases h5 : r ≥ 5
    · simp [h5] at h
    · simp only [h5, if_false, Except.ok.injEq] at h
      rw [← h]
      exact he
  | succ fuel ih =>
    intro p r e x he h
    unfold parse_pmt_loop at h
    by_cases h5 : r ≥ 5
    · simp only [h5, if_true] at h
      exact ih _ _ _ x (hQ _ _ e (pid13_lt _ _ (byte_lt buf _)) he) h
    · simp only [h5, if_false, Except.ok.injEq] at h
      rw [← h]
      exact he

/-- A property of entries that holds of every entry `parse_pat` builds is kept
by its loop. -/
theorem parse_pat_loop_invariant (Q : pid_table → Prop) (buf : List uchar)
    (hQ : ∀ a b : Nat, a < 0x10000 → b < 0x2000 → Q (pat_entry a b)) :
    ∀ (fuel p : Nat) (r : Int) (tbl : List pid_table) (n : Nat)
      (x : List pid_table × Int × Nat),
      (∀ e ∈ tbl, Q e) → parse_pat_loop buf fuel p r tbl n = .ok x → ∀ e ∈ x.1, Q e := by
  intro fuel
  induction fuel with
  | zero =>
    intro p r tbl n x ht h
    unfold parse_pat_loop at h
    by_cases h3 : r > 3
    · simp [h3] at h
    · simp only [h3, if_false, Except.ok.injEq] at h
      rw [← h]
      exact ht
  | succ fuel ih =>
    intro p r tbl n x ht h
    unfold parse_pat_loop at h
    by_cases h3 : r > 3
    · by_cases hn : n < tbl.length
      · simp only [h3, if_true, hn] at h
        refine ih _ _ _ _ x ?_ h
        intro e he
        rcases List.mem_or_eq_of_mem_set he with he | he
        · exact ht e he
        · rw [he]
          exact hQ _ _ (u16_lt _ _ (byte_lt buf _) (byte_lt buf _))
            (pid13_lt _ _ (byte_lt buf _))
      · simp [h3, hn] at h
    · simp only [h3, if_false, Except.ok.injEq] at h
      rw [← h]
      exact ht

/-- A property of entries that holds of every entry `parse_pat` builds and is
true of the entries in place is true of all entries after `parse_pat`. -/
theorem parse_pat_invariant (Q : pid_table → Prop) (sz : Nat) (d : dvb_descriptors)
    (buf : List uchar) (p : Nat) (r : Int) (id version : Nat)
    (hQ : ∀ a b : Nat, a < 0x10000 → b < 0x2000 → Q (pat_entry a b))
    (hd : ∀ e ∈ d.pat_table.pid_table, Q e) (x : dvb_descriptors × Int)
    (h : parse_pat sz d buf p r id version = .ok x) :
    x.1.pat_table.ts_id = id ∧ x.1.pat_table.version = version ∧
      ∀ e ∈ x.1.pat_table.pid_table, Q e := by
  unfold parse_pat at h
  simp only [] at h
  cases hl : parse_pat_loop buf r.toNat p r
      (realloc_entries d.pat_table.pid_table (pat_capacity sz r))
      d.pat_table.pid_table_len with
  | error f => rw [hl] at h; cases h
  | ok y =>
    obtain ⟨tbl, r', n⟩ := y
    rw [hl] at h
    simp only [Except.ok.injEq] at h
    rw [← h]
    refine ⟨rfl, rfl, ?_⟩
    refine parse_pat_loop_invariant Q buf hQ _ _ _ _ _ (tbl, r', n) ?_ hl
    intro e he
    unfold realloc_entries at he
    rcases List.mem_append.mp he with he | he
    · exact hd e (List.mem_of_mem_take he)
    · rw [(List.mem_replicate.mp he).2]
      exact hQ 0 0 (by decide) (by decide)

/-- What a decoded section was: a PAT section handed to `parse_pat`, a PMT
section handed to `parse_pmt` for the entry `ptr` points to, or a section of
another table, which changes nothing. -/
theorem decode_section_cases (sz : Nat) (ptr : Option Nat) (d d' : dvb_descriptors)
    (buf : List uchar) (nx : Bool) (h : decode_section sz ptr d buf = .ok (d', nx)) :
    nx = decide (byte buf 6 ≠ byte buf 7) ∧
    ((byte buf 0 = 0x00 ∧ ∃ r' : Int,
        parse_pat sz d buf 8 (section_length_field buf - 8)
          ((byte buf 3 <<< 8) ||| byte buf 4) ((byte buf 5 >>> 1) &&& 0x1f) = .ok (d', r')) ∨
     (byte buf 0 = 0x02 ∧ ∃ (i : Nat) (e e' : pid_table) (r' : Int),
        ptr = some i ∧ d.pat_table.pid_table[i]? = some e ∧
        parse_pmt e buf 8 (section_length_field buf - 8)
          ((byte buf 3 <<< 8) ||| byte buf 4) ((byte buf 5 >>> 1) &&& 0x1f) = .ok (e', r') ∧
        d' = { pat_table := { d.pat_table with
                 pid_table := d.pat_table.pid_table.set i e' } }) ∨
     (byte buf 0 ≠ 0x00 ∧ byte buf 0 ≠ 0x02 ∧ d' = d)) := by
  unfold decode_section at h
  simp only [] at h
  by_cases t0 : byte buf 0 = 0x00
  · rw [if_pos t0] at h
    cases hp : parse_pat sz d buf 8 (section_length_field buf - 8)
        ((byte buf 3 <<< 8) ||| byte buf 4) ((byte buf 5 >>> 1) &&& 0x1f) with
    | error f => rw [hp] at h; cases h
    | ok x =>
      obtain ⟨d1, r1⟩ := x
      rw [hp] at h
      simp only [Except.ok.injEq, Prod.mk.injEq] at h
      refine ⟨h.2.symm, Or.inl ⟨t0, r1, ?_⟩⟩
      rw [← h.1]
  · by_cases t2 : byte buf 0 = 0x02
    · rw [if_neg t0, if_pos t2] at h
      cases ptr with
      | none => cases h
      | some i =>
        simp only [] at h
        cases hg : d.pat_table.pid_table.get? i with
        | none => rw [hg] at h; cases h
        | some e =>
          rw [hg] at h
          simp only [] at h
          cases hp : parse_pmt e buf 8 (section_length_field buf - 8)
              ((byte buf 3 <<< 8) ||| byte buf 4) ((byte buf 5 >>> 1) &&& 0x1f) with
          | error f => rw [hp] at h; cases h
          | ok x =>
            obtain ⟨e1, r1⟩ := x
            rw [hp] at h
            simp only [Except.ok.injEq, Prod.mk.injEq] at h
            refine ⟨h.2.symm, Or.inr (Or.inl ⟨t2, i, e, e1, r1, rfl, ?_, hp, h.1.symm⟩)⟩
            rw [← List.get?_eq_getElem?]
            exact hg
    · rw [if_neg t0, if_neg t2] at h
      simp only [Except.ok.injEq, Prod.mk.injEq] at h
      exact ⟨h.2.symm, Or.inr (Or.inr ⟨t0, t2, h.1.symm⟩)⟩

/-- A property of the aggregate that every decoded section keeps is kept by
the loop of `read_section`. -/
theorem read_loop_invariant (P : dvb_descriptors → Prop) (sz : Nat) (ptr : Option Nat)
    (hstep : ∀ (d d' : dvb_descriptors) (buf : List uchar) (nx : Bool),
      P d → decode_section sz ptr d buf = .ok (d', nx) → P d') :
    ∀ (feed : List delivery) (next : Bool) (d : dvb_descriptors) (buf : List uchar)
      (r : read_result),
      P d → read_loop sz ptr feed next d buf = .ok r → P r.dvb_desc := by
  intro feed
  induction feed with
  | nil =>
    intro next d buf r hd h
    rw [read_loop] at h
    cases h
    exact hd
  | cons x rest ih =>
    intro next d buf r hd h
    cases x with
    | timeout => rw [read_loop] at h; cases h; exact hd
    | overrun => rw [read_loop] at h; exact ih next d buf r hd h
    | io_error => rw [read_loop] at h; cases h; exact hd
    | data bytes =>
      rw [read_loop] at h
      simp only [] at h
      by_cases h0 : bytes.length = 0
      · rw [if_pos h0] at h; cases h; exact hd
      · rw [if_neg h0] at h
        by_cases hf : framing_ok (bytes ++ buf.drop bytes.length) bytes.length = true
        · rw [if_pos hf] at h
          cases hdec : decode_section sz ptr d (bytes ++ buf.drop bytes.length) with
          | error f => rw [hdec] at h; cases h
          | ok y =>
            obtain ⟨d1, nx⟩ := y
            have hd1 := hstep d d1 _ nx hd hdec
            rw [hdec] at h
            simp only [] at h
            by_cases hn : nx = true
            · rw [if_pos hn] at h
              exact ih nx d1 _ r hd1 h
            · rw [if_neg hn] at h
              cases h
              exact hd1
        · rw [if_neg hf] at h
          by_cases hn : next = true
          · rw [if_pos hn] at h
            exact ih next d _ r hd h
          · rw [if_neg hn] at h
            cases h
            exact hd

/-- A property of the aggregate that every decoded section keeps is kept by
`read_section`. -/
theorem read_section_invariant (P : dvb_descriptors → Prop) (sz : Nat)
    (dmx : Nat → Nat → session) (fd_closed : Bool) (d : dvb_descriptors)
    (pid table : Nat) (ptr : Option Nat)
    (hstep : ∀ (d d' : dvb_descriptors) (buf : List uchar) (nx : Bool),
      P d → decode_section sz ptr d buf = .ok (d', nx) → P d')
    (r : read_result) (hd : P d)
    (h : read_section sz dmx fd_closed d pid table ptr = .ok r) : P r.dvb_desc := by
  unfold read_section at h
  simp only [] at h
  by_cases hc : (fd_closed || !(dmx pid table).ioctl_ok) = true
  · rw [if_pos hc] at h
    cases h
    exact hd
  · rw [if_neg hc] at h
    exact read_loop_invariant P sz ptr hstep _ _ _ _ r hd h

/-! ## Field widths -/

theorem pat_entry_fits (a b : Nat) (ha : a < 0x10000) (hb : b < 0x2000) :
    entry_fits (pat_entry a b) = true := by
  rw [entry_fits_iff]
  simp [pat_entry, zero_entry, ha, hb]

theorem store_stream_fits (t pid : Nat) (e : pid_table) (hp : pid < 0x2000)
    (he : entry_fits e = true) : entry_fits (store_stream t pid e) = true := by
  rw [entry_fits_iff] at he ⊢
  obtain ⟨h1, h2, h3, h4, h5, h6⟩ := he
  unfold store_stream
  by_cases hv : t = 0x01 ∨ t = 0x02 ∨ t = 0x10 ∨ t = 0x1b
  · rw [if_pos hv]
    refine ⟨h1, h2, h3, h4, ?_, h6⟩
    intro v hvm
    rcases List.mem_append.mp hvm with hvm | hvm
    · exact h5 v hvm
    · rw [List.mem_singleton.mp hvm]; exact hp
  · rw [if_neg hv]
    by_cases ha : t = 0x03 ∨ t = 0x04 ∨ t = 0x0f ∨ t = 0x11 ∨ t = 0x81
    · rw [if_pos ha]
      refine ⟨h1, h2, h3, h4, h5, ?_⟩
      intro a ham
      rcases List.mem_append.mp ham with ham | ham
      · exact h6 a ham
      · rw [List.mem_singleton.mp ham]; exact hp
    · rw [if_neg ha]
      exact ⟨h1, h2, h3, h4, h5, h6⟩

/-- An entry that respects the field widths still does after `parse_pmt`
stored a version below 32 and the pids of a payload in it. -/
theorem parse_pmt_fits (e : pid_table) (buf : List uchar) (p : Nat) (r : Int)
    (id version : Nat) (x : pid_table × Int) (he : entry_fits e = true)
    (hv : version < 32) (h : parse_pmt e buf p r id version = .ok x) :
    entry_fits x.1 = true := by
  unfold parse_pmt at h
  simp only [] at h
  refine parse_pmt_loop_invariant (fun e => entry_fits e = true) buf
    (fun t pid e hp he => store_stream_fits t pid e hp he) _ _ _ _ x ?_ h
  rw [entry_fits_iff] at he ⊢
  obtain ⟨h1, h2, _, _, h5, h6⟩ := he
  exact ⟨h1, h2, pid13_lt _ _ (byte_lt buf _), hv, h5, h6⟩

/-- Decoding a section keeps the field widths. -/
theorem decode_section_fits (sz : Nat) (ptr : Option Nat) (d d' : dvb_descriptors)
    (buf : List uchar) (nx : Bool) (hd : fields_fit d = true)
    (h : decode_section sz ptr d buf = .ok (d', nx)) : fields_fit d' = true := by
  rw [fields_fit_iff] at hd ⊢
  obtain ⟨hv, he⟩ := hd
  rcases (decode_section_cases sz ptr d d' buf nx h).2 with
    ⟨_, r', hp⟩ | ⟨_, i, e, e', r', _, hg, hp, hd'⟩ | ⟨_, _, hd'⟩
  · obtain ⟨_, h2, h3⟩ := parse_pat_invariant (fun e => entry_fits e = true) sz d buf 8 _ _ _
      pat_entry_fits he (d', r') hp
    refine ⟨?_, h3⟩
    rw [h2]
    exact version_lt _
  · rw [hd']
    refine ⟨hv, ?_⟩
    intro e1 he1
    rcases List.mem_or_eq_of_mem_set he1 with he1 | he1
    · exact he e1 he1
    · rw [he1]
      exact parse_pmt_fits e buf 8 _ _ _ (e', r') (he e (List.getElem?_mem hg))
        (version_lt _) hp
  · rw [hd']
    exact ⟨hv, he⟩

/-- C12: `read_section` keeps the field widths for every demux behaviour and
every byte sequence delivered: if every stored program number is below
`0x10000`, every program pid, `pcr_pid`, video pid and audio pid is below
`0x2000` and every stored version (PAT table, PMT tables) is below 32 before
the call, the same holds of the aggregate the call leaves. -/
theorem read_section_fields_fit (sz : Nat) (dmx : Nat → Nat → session) (fd_closed : Bool)
    (d : dvb_descriptors) (pid table : Nat) (ptr : Option Nat) (r : read_result)
    (hd : fields_fit d = true)
    (h : read_section sz dmx fd_closed d pid table ptr = .ok r) :
    fields_fit r.dvb_desc = true :=
  read_section_invariant (fun d => fields_fit d = true) sz dmx fd_closed d pid table ptr
    (fun d d' buf nx hd h => decode_section_fits sz ptr d d' buf nx hd h) r hd h

/-- Witness for C12: a PMT section whose id, version and pid fields have every
bit set, read for the only entry of the aggregate. -/
theorem read_section_fields_fit_witness :
    (fields_fit
        { pat_table := { ts_id := 1, version := 0, pid_table := [pat_entry 0x11 0x0100], pid_table_len := 1 } } = true ∧
      read_section 40
          (fun _ _ => { ioctl_ok := true, stack := [], feed :=
            [.data [0x02, 0xB0, 0x17, 0xFF, 0xFF, 0xFF, 0x00, 0x00, 0xFF, 0xFF, 0xF0, 0x00,
                    0x02, 0xFF, 0xFE, 0xF0, 0x00, 0x81, 0xFF, 0xFD, 0xF0, 0x00,
                    0xDE, 0xAD, 0xBE, 0xEF]] })
          false
          { pat_table := { ts_id := 1, version := 0, pid_table := [pat_entry 0x11 0x0100], pid_table_len := 1 } }
          0x0100 0x02 (some 0) =
        .ok { ret := 0, dvb_desc := { pat_table := { ts_id := 1, version := 0, pid_table := [{ program_number := 0x11, pid := 0x0100, pmt_table := { program_number := 0xFFFF, version := 31, pcr_pid := 0x1FFF }, video_pid := [0x1FFE], audio_pid := [0x1FFD] }], pid_table_len := 1 } }, feed := [], closed := false }) ∧
    fields_fit
      (read_result.dvb_desc
        { ret := 0, dvb_desc := { pat_table := { ts_id := 1, version := 0, pid_table := [{ program_number := 0x11, pid := 0x0100, pmt_table := { program_number := 0xFFFF, version := 31, pcr_pid := 0x1FFF }, video_pid := [0x1FFE], audio_pid := [0x1FFD] }], pid_table_len := 1 } }, feed := [], closed := false }) = true :=
  ⟨⟨by decide, by decide⟩,
    read_section_fields_fit 40
      (fun _ _ => { ioctl_ok := true, stack := [], feed :=
            [.data [0x02, 0xB0, 0x17, 0xFF, 0xFF, 0xFF, 0x00, 0x00, 0xFF, 0xFF, 0xF0, 0x00,
                    0x02, 0xFF, 0xFE, 0xF0, 0x00, 0x81, 0xFF, 0xFD, 0xF0, 0x00,
                    0xDE, 0xAD, 0xBE, 0xEF]] })
      false
      { pat_table := { ts_id := 1, version := 0, pid_table := [pat_entry 0x11 0x0100], pid_table_len := 1 } }
      0x0100 0x02 (some 0) _ (by decide) (by decide)⟩

/-! ## The trailing CRC of a PAT section -/

theorem byte_append_right (hd tl : List uchar) (i : Nat) :
    byte (hd ++ tl) (hd.length + i) = byte tl i := by
  unfold byte
  rw [List.getD_append_right _ _ _ _ (Nat.le_add_right _ _), Nat.add_sub_cancel_left]

/-- The records read from offset `hd.length + q` of `hd ++ recs ++ tl` are the
records read from offset `q` of `recs`, as long as they lie inside `recs`. -/
theorem pat_records_middle (hd recs tl : List uchar) :
    ∀ (k q : Nat), q + 4 * k ≤ recs.length →
      pat_records (hd ++ (recs ++ tl)) (hd.length + q) k = pat_records recs q k := by
  intro k
  induction k with
  | zero => intro q _; rfl
  | succ k ih =>
    intro q h
    have e : ∀ j, j < 4 → byte (hd ++ (recs ++ tl)) (hd.length + q + j) = byte recs (q + j) := by
      intro j hj
      rw [Nat.add_assoc, byte_append_right, byte_append_left _ _ _ (by omega)]
    have e0 := e 0 (by omega)
    simp only [Nat.add_zero] at e0
    simp only [pat_records]
    rw [e0, e 1 (by omega), e 2 (by omega), e 3 (by omega), Nat.add_assoc, ih (q + 4) (by omega)]

/-- A PAT section of `k` records decoded into an aggregate without entries:
the header gives `ts_id`, `version` and `next`, the `4 * k` bytes behind the
header give the entries, and what follows them gives nothing. -/
theorem decode_section_pat (sz k : Nat) (ptr : Option Nat) (d : dvb_descriptors)
    (hdr recs tl : List uchar) (hsz : 0 < sz) (hh : hdr.length = 8)
    (ht : byte hdr 0 = 0x00) (hl : section_length_field hdr = 5 + 4 * (k : Int) + 4)
    (hr : recs.length = 4 * k) (hn : d.pat_table.pid_table_len = 0) :
    decode_section sz ptr d (hdr ++ (recs ++ tl)) =
      .ok ({ pat_table := { ts_id := (byte hdr 3 <<< 8) ||| byte hdr 4,
                            version := (byte hdr 5 >>> 1) &&& 0x1f,
                            pid_table := pat_records recs 0 k,
                            pid_table_len := k } },
           decide (byte hdr 6 ≠ byte hdr 7)) := by
  have hb : ∀ i, i < 8 → byte (hdr ++ (recs ++ tl)) i = byte hdr i :=
    fun i hi => byte_append_left _ _ i (by omega)
  unfold decode_section
  simp only []
  rw [hb 0 (by omega), hb 3 (by omega), hb 4 (by omega), hb 5 (by omega), hb 6 (by omega),
    hb 7 (by omega), section_length_field_append _ _ (by omega), if_pos ht,
    parse_pat_fresh sz d _ 8 _ _ _ hsz (by omega) hn]
  have e1 : (section_length_field hdr - 8).toNat / 4 = k := by omega
  have e2 := pat_records_middle hdr recs tl k 0 (by omega)
  rw [hh] at e2
  simp only [e1, e2]

/-- The first record-bearing PAT section of a call: an accepted section made
of the 8 header bytes, `k` 4-byte records and a 4-byte CRC
(`section_length = 5 + 4k + 4`), arriving in any round of the loop of
`read_section` while the aggregate holds no entry: `parse_pat` stores the `k`
records and leaves a remaining length of 1, and `read_section` goes on with
(or returns) an aggregate whose `k` entries are computed from the record
bytes alone; the CRC bytes appear nowhere in them. -/
theorem read_section_skips_crc (sz k : Nat) (ptr : Option Nat) (d : dvb_descriptors)
    (hdr recs crc buf : List uchar) (rest : List delivery) (next : Bool)
    (hsz : 0 < sz) (hh : hdr.length = 8) (ht : byte hdr 0 = 0x00)
    (hl : section_length_field hdr = 5 + 4 * (k : Int) + 4)
    (hr : recs.length = 4 * k) (hc : crc.length = 4)
    (hn : d.pat_table.pid_table_len = 0) :
    parse_pat sz d (hdr ++ recs ++ crc) 8 (section_length_field hdr - 8)
        ((byte hdr 3 <<< 8) ||| byte hdr 4) ((byte hdr 5 >>> 1) &&& 0x1f) =
      .ok ({ pat_table := { ts_id := (byte hdr 3 <<< 8) ||| byte hdr 4,
                            version := (byte hdr 5 >>> 1) &&& 0x1f,
                            pid_table := pat_records recs 0 k,
                            pid_table_len := k } }, 1) ∧
    read_loop sz ptr (.data (hdr ++ recs ++ crc) :: rest) next d buf =
      if byte hdr 6 ≠ byte hdr 7 then
        read_loop sz ptr rest true
          { pat_table := { ts_id := (byte hdr 3 <<< 8) ||| byte hdr 4,
                           version := (byte hdr 5 >>> 1) &&& 0x1f,
                           pid_table := pat_records recs 0 k,
                           pid_table_len := k } }
          (hdr ++ recs ++ crc ++ buf.drop (hdr ++ recs ++ crc).length)
      else
        .ok { ret := 0,
              dvb_desc := { pat_table := { ts_id := (byte hdr 3 <<< 8) ||| byte hdr 4,
                                           version := (byte hdr 5 >>> 1) &&& 0x1f,
                                           pid_table := pat_records recs 0 k,
                                           pid_table_len := k } },
              feed := rest, closed := false } := by
  constructor
  · rw [parse_pat_fresh sz d _ 8 _ _ _ hsz (by omega) hn]
    have e1 : (section_length_field hdr - 8).toNat / 4 = k := by omega
    have e2 := pat_records_middle hdr recs crc k 0 (by omega)
    rw [hh] at e2
    have e3 : section_length_field hdr - 8 - 4 * ((k : Nat) : Int) = 1 := by omega
    simp only [e1, List.append_assoc, e2, e3]
  · have hlen : (hdr ++ recs ++ crc).length = 4 * k + 12 := by
      simp only [List.length_append, hh, hr, hc]; omega
    have hassoc : hdr ++ recs ++ crc ++ buf.drop (hdr ++ recs ++ crc).length =
        hdr ++ (recs ++ (crc ++ buf.drop (hdr ++ recs ++ crc).length)) := by
      simp only [List.append_assoc]
    have hf : framing_ok (hdr ++ recs ++ crc ++ buf.drop (hdr ++ recs ++ crc).length)
        (hdr ++ recs ++ crc).length = true := by
      unfold framing_ok
      rw [hassoc, section_length_field_append _ _ (by omega), hlen, hl]
      simp only [Bool.and_eq_true, decide_eq_true_eq]
      constructor
      · omega
      · push_cast; omega
    rw [read_loop]
    simp only []
    rw [if_neg (by omega), if_pos hf, hassoc,
      decode_section_pat sz k ptr d hdr recs _ hsz hh ht hl hr hn]
    simp only []
    by_cases h67 : byte hdr 6 = byte hdr 7
    · simp [h67]
    · simp [h67]

/-- An instance of `read_section_skips_crc`: a final PAT section of two
records and a CRC, first delivery of a call on the empty aggregate. -/
theorem read_section_skips_crc_witness :
    (0 < 40 ∧ ([0x00, 0xB0, 0x11, 0x00, 0x01, 0xC1, 0x00, 0x00] : List uchar).length = 8 ∧ byte ([0x00, 0xB0, 0x11, 0x00, 0x01, 0xC1, 0x00, 0x00] : List uchar) 0 = 0x00 ∧
      section_length_field ([0x00, 0xB0, 0x11, 0x00, 0x01, 0xC1, 0x00, 0x00] : List uchar) = 5 + 4 * ((2 : Nat) : Int) + 4 ∧
      ([0x00, 0x11, 0xE1, 0x00, 0x00, 0x12, 0xE2, 0x00] : List uchar).length = 4 * 2 ∧ ([0xDE, 0xAD, 0xBE, 0xEF] : List uchar).length = 4 ∧
      calloc_desc.pat_table.pid_table_len = 0) ∧
    (parse_pat 40 calloc_desc (([0x00, 0xB0, 0x11, 0x00, 0x01, 0xC1, 0x00, 0x00] : List uchar) ++ ([0x00, 0x11, 0xE1, 0x00, 0x00, 0x12, 0xE2, 0x00] : List uchar) ++ ([0xDE, 0xAD, 0xBE, 0xEF] : List uchar)) 8
        (section_length_field ([0x00, 0xB0, 0x11, 0x00, 0x01, 0xC1, 0x00, 0x00] : List uchar) - 8)
        ((byte ([0x00, 0xB0, 0x11, 0x00, 0x01, 0xC1, 0x00, 0x00] : List uchar) 3 <<< 8) ||| byte ([0x00, 0xB0, 0x11, 0x00, 0x01, 0xC1, 0x00, 0x00] : List uchar) 4) ((byte ([0x00, 0xB0, 0x11, 0x00, 0x01, 0xC1, 0x00, 0x00] : List uchar) 5 >>> 1) &&& 0x1f) =
      .ok ({ pat_table := { ts_id := (byte ([0x00, 0xB0, 0x11, 0x00, 0x01, 0xC1, 0x00, 0x00] : List uchar) 3 <<< 8) ||| byte ([0x00, 0xB0, 0x11, 0x00, 0x01, 0xC1, 0x00, 0x00] : List uchar) 4, version := (byte ([0x00, 0xB0, 0x11, 0x00, 0x01, 0xC1, 0x00, 0x00] : List uchar) 5 >>> 1) &&& 0x1f, pid_table := pat_records ([0x00, 0x11, 0xE1, 0x00, 0x00, 0x12, 0xE2, 0x00] : List uchar) 0 2, pid_table_len := 2 } }, 1) ∧
    read_loop 40 none (.data (([0x00, 0xB0, 0x11, 0x00, 0x01, 0xC1, 0x00, 0x00] : List uchar) ++ ([0x00, 0x11, 0xE1, 0x00, 0x00, 0x12, 0xE2, 0x00] : List uchar) ++ ([0xDE, 0xAD, 0xBE, 0xEF] : List uchar)) :: []) false calloc_desc [] =
      if byte ([0x00, 0xB0, 0x11, 0x00, 0x01, 0xC1, 0x00, 0x00] : List uchar) 6 ≠ byte ([0x00, 0xB0, 0x11, 0x00, 0x01, 0xC1, 0x00, 0x00] : List uchar) 7 then
        read_loop 40 none [] true
          { pat_table := { ts_id := (byte ([0x00, 0xB0, 0x11, 0x00, 0x01, 0xC1, 0x00, 0x00] : List uchar) 3 <<< 8) ||| byte ([0x00, 0xB0, 0x11, 0x00, 0x01, 0xC1, 0x00, 0x00] : List uchar) 4, version := (byte ([0x00, 0xB0, 0x11, 0x00, 0x01, 0xC1, 0x00, 0x00] : List uchar) 5 >>> 1) &&& 0x1f, pid_table := pat_records ([0x00, 0x11, 0xE1, 0x00, 0x00, 0x12, 0xE2, 0x00] : List uchar) 0 2, pid_table_len := 2 } }
          (([0x00, 0xB0, 0x11, 0x00, 0x01, 0xC1, 0x00, 0x00] : List uchar) ++ ([0x00, 0x11, 0xE1, 0x00, 0x00, 0x12, 0xE2, 0x00] : List uchar) ++ ([0xDE, 0xAD, 0xBE, 0xEF] : List uchar) ++ ([] : List uchar).drop (([0x00, 0xB0, 0x11, 0x00, 0x01, 0xC1, 0x00, 0x00] : List uchar) ++ ([0x00, 0x11, 0xE1, 0x00, 0x00, 0x12, 0xE2, 0x00] : List uchar) ++ ([0xDE, 0xAD, 0xBE, 0xEF] : List uchar)).length)
      else
        .ok { ret := 0, dvb_desc := { pat_table := { ts_id := (byte ([0x00, 0xB0, 0x11, 0x00, 0x01, 0xC1, 0x00, 0x00] : List uchar) 3 <<< 8) ||| byte ([0x00, 0xB0, 0x11, 0x00, 0x01, 0xC1, 0x00, 0x00] : List uchar) 4, version := (byte ([0x00, 0xB0, 0x11, 0x00, 0x01, 0xC1, 0x00, 0x00] : List uchar) 5 >>> 1) &&& 0x1f, pid_table := pat_records ([0x00, 0x11, 0xE1, 0x00, 0x00, 0x12, 0xE2, 0x00] : List uchar) 0 2, pid_table_len := 2 } }, feed := [], closed := false }) :=
  ⟨⟨by decide, by decide, by decide, by decide, by decide, by decide, rfl⟩,
    read_section_skips_crc 40 2 none calloc_desc ([0x00, 0xB0, 0x11, 0x00, 0x01, 0xC1, 0x00, 0x00] : List uchar) ([0x00, 0x11, 0xE1, 0x00, 0x00, 0x12, 0xE2, 0x00] : List uchar) ([0xDE, 0xAD, 0xBE, 0xEF] : List uchar) [] [] false
      (by decide) (by decide) (by decide) (by decide) (by decide) (by decide) rfl⟩

/-- C16: an accepted PAT section of `k = 1` record and a CRC
(`section_length = 5 + 4 + 4`) does not always append its record.  Arriving
as section 1 of 1 behind a section 0 of 1 that stored two entries, it makes
`parse_pat` reallocate `pid_table` to room for `5 / 4 = 1` entry and store at
index 2, outside the block; arriving alone on the empty aggregate, the same
section appends exactly its one record and none of its CRC bytes. -/
theorem read_section_later_section_overflows :
    read_section 40
        (fun _ _ => { ioctl_ok := true, stack := [], feed :=
          [.data [0x00, 0xB0, 0x11, 0x00, 0x01, 0xC1, 0x00, 0x01, 0x00, 0x11, 0xE1, 0x00, 0x00, 0x12, 0xE1, 0x01, 0xDE, 0xAD, 0xBE, 0xEF],
           .data [0x00, 0xB0, 0x0D, 0x00, 0x01, 0xC1, 0x01, 0x01, 0x00, 0x13, 0xE1, 0x02, 0xCA, 0xFE, 0xBA, 0xBE]] })
        false calloc_desc 0 0 none =
      .error (fault.heap_overflow 2 1) ∧
    read_section 40
        (fun _ _ => { ioctl_ok := true, stack := [], feed :=
          [.data [0x00, 0xB0, 0x0D, 0x00, 0x01, 0xC1, 0x01, 0x01, 0x00, 0x13, 0xE1, 0x02, 0xCA, 0xFE, 0xBA, 0xBE]] })
        false calloc_desc 0 0 none =
      .ok { ret := 0, dvb_desc := { pat_table := { ts_id := 1, version := 0, pid_table := [pat_entry 0x0013 0x0102], pid_table_len := 1 } }, feed := [], closed := false } := by
  decide

/-! ## The header fields of the PAT table -/

/-- C15: two deliveries that pass the framing check and whose handling takes
bytes from beyond the received data.  The 7-byte PAT section
`00 B0 04 16 1E 7E 71` (`section_length = 4`): `last_section_number` is
`buf[7]`, a byte left in the array from before, and it decides whether the
call returns 0 or goes on reading.  The 8-byte PMT section
`02 B0 05 00 26 EA 0E C7` (`section_length = 5`): `parse_pmt` takes `pcr_pid`
from `buf[8]` and `buf[9]`, again bytes left from before. -/
theorem read_section_takes_stale_bytes :
    read_section 40
        (fun _ _ => { ioctl_ok := true, stack := [0, 0, 0, 0, 0, 0, 0, 0x71], feed := [.data [0x00, 0xB0, 0x04, 0x16, 0x1E, 0x7E, 0x71]] })
        false calloc_desc 0 0 none =
      .ok { ret := 0, dvb_desc := { pat_table := { ts_id := 0x161E, version := 31, pid_table := [], pid_table_len := 0 } }, feed := [], closed := false } ∧
    read_section 40
        (fun _ _ => { ioctl_ok := true, stack := [0, 0, 0, 0, 0, 0, 0, 0x00], feed := [.data [0x00, 0xB0, 0x04, 0x16, 0x1E, 0x7E, 0x71]] })
        false calloc_desc 0 0 none =
      .ok { ret := -1, dvb_desc := { pat_table := { ts_id := 0x161E, version := 31, pid_table := [], pid_table_len := 0 } }, feed := [], closed := false } ∧
    read_section 40
        (fun _ _ => { ioctl_ok := true, stack := [0, 0, 0, 0, 0, 0, 0, 0, 0x00, 0x00, 0, 0], feed := [.data [0x02, 0xB0, 0x05, 0x00, 0x26, 0xEA, 0x0E, 0xC7]] })
        false { pat_table := { ts_id := 1, version := 0, pid_table := [pat_entry 0x11 0x0100], pid_table_len := 1 } } 0x0100 0x02 (some 0) =
      .ok { ret := -1, dvb_desc := { pat_table := { ts_id := 1, version := 0, pid_table := [{ program_number := 0x11, pid := 0x0100, pmt_table := { program_number := 0x0026, version := 21, pcr_pid := 0x0000 }, video_pid := [], audio_pid := [] }], pid_table_len := 1 } }, feed := [], closed := false } ∧
    read_section 40
        (fun _ _ => { ioctl_ok := true, stack := [0, 0, 0, 0, 0, 0, 0, 0, 0x1F, 0xFF, 0, 0], feed := [.data [0x02, 0xB0, 0x05, 0x00, 0x26, 0xEA, 0x0E, 0xC7]] })
        false { pat_table := { ts_id := 1, version := 0, pid_table := [pat_entry 0x11 0x0100], pid_table_len := 1 } } 0x0100 0x02 (some 0) =
      .ok { ret := -1, dvb_desc := { pat_table := { ts_id := 1, version := 0, pid_table := [{ program_number := 0x11, pid := 0x0100, pmt_table := { program_number := 0x0026, version := 21, pcr_pid := 0x1FFF }, video_pid := [], audio_pid := [] }], pid_table_len := 1 } }, feed := [], closed := false } := by
  decide

/-! ## The PMT phase -/

theorem same_programs_refl (d : dvb_descriptors) : same_programs d d :=
  ⟨rfl, rfl, rfl, fun _ => rfl⟩

theorem same_programs_trans (d d' d'' : dvb_descriptors) (h1 : same_programs d d')
    (h2 : same_programs d' d'') : same_programs d d'' :=
  ⟨h2.1.trans h1.1, h2.2.1.trans h1.2.1, h2.2.2.1.trans h1.2.2.1,
    fun m => (h2.2.2.2 m).trans (h1.2.2.2 m)⟩

theorem same_programs_length (d d' : dvb_descriptors) (h : same_programs d d') :
    d'.pat_table.pid_table.length = d.pat_table.pid_table.length := by
  have key : ∀ m, d'.pat_table.pid_table.length ≤ m ↔ d.pat_table.pid_table.length ≤ m := by
    intro m
    have hm := h.2.2.2 m
    rw [← List.getElem?_eq_none_iff, ← List.getElem?_eq_none_iff]
    constructor
    · intro hn
      rw [hn] at hm
      cases hg : d.pat_table.pid_table[m]? with
      | none => rfl
      | some e => rw [hg] at hm; cases hm
    · intro hn
      rw [hn] at hm
      cases hg : d'.pat_table.pid_table[m]? with
      | none => rfl
      | some e => rw [hg] at hm; cases hm
  have a := (key d.pat_table.pid_table.length).mpr (le_refl _)
  have b := (key d'.pat_table.pid_table.length).mp (le_refl _)
  omega

/-- The loop of `parse_pmt` keeps the program number and the pid of the
entry. -/
theorem parse_pmt_key (e : pid_table) (buf : List uchar) (p : Nat) (r : Int)
    (id version : Nat) (x : pid_table × Int)
    (h : parse_pmt e buf p r id version = .ok x) : entry_key x.1 = entry_key e := by
  unfold parse_pmt at h
  simp only [] at h
  refine parse_pmt_loop_invariant (fun e' => entry_key e' = entry_key e) buf ?_ _ _ _ _ x ?_ h
  · intro t pid e' _ he'
    rw [← he']
    unfold store_stream
    by_cases hv : t = 0x01 ∨ t = 0x02 ∨ t = 0x10 ∨ t = 0x1b
    · rw [if_pos hv]; rfl
    · rw [if_neg hv]
      by_cases ha : t = 0x03 ∨ t = 0x04 ∨ t = 0x0f ∨ t = 0x11 ∨ t = 0x81
      · rw [if_pos ha]; rfl
      · rw [if_neg ha]
  · rfl

/-- A PMT section decoded for the entry of index `i` inside the block changes
that entry alone and keeps its program number and pid. -/
theorem decode_section_pmt (sz i : Nat) (d : dvb_descriptors) (buf : List uchar)
    (ht : byte buf 0 = 0x02) (hi : i < d.pat_table.pid_table.length) :
    ∃ (d' : dvb_descriptors) (nx : Bool),
      decode_section sz (some i) d buf = .ok (d', nx) ∧ same_programs d d' ∧
      ∀ m, m ≠ i → d'.pat_table.pid_table[m]? = d.pat_table.pid_table[m]? := by
  have t0 : ¬ byte buf 0 = 0x00 := by rw [ht]; decide
  obtain ⟨x, hx⟩ := parse_pmt_ok (d.pat_table.pid_table[i]) buf 8
    (section_length_field buf - 8) ((byte buf 3 <<< 8) ||| byte buf 4)
    ((byte buf 5 >>> 1) &&& 0x1f)
  have hk := parse_pmt_key _ _ _ _ _ _ x hx
  obtain ⟨e1, r1⟩ := x
  have hg : d.pat_table.pid_table.get? i = some (d.pat_table.pid_table[i]) := by
    rw [List.get?_eq_getElem?, List.getElem?_eq_getElem hi]
  refine ⟨{ pat_table := { d.pat_table with pid_table := d.pat_table.pid_table.set i e1 } },
    decide (byte buf 6 ≠ byte buf 7), ?_, ⟨rfl, rfl, rfl, ?_⟩, ?_⟩
  · unfold decode_section
    simp only []
    rw [if_neg t0, if_pos ht]
    simp only [hg, hx]
  · intro m
    simp only [List.getElem?_set]
    by_cases hm : i = m
    · subst hm
      rw [if_pos rfl, if_pos hi, List.getElem?_eq_getElem hi]
      simp only [Option.map_some']
      rw [hk]
    · rw [if_neg hm]
  · intro m hm
    simp only [List.getElem?_set]
    rw [if_neg (fun h => hm h.symm)]

/-- A PMT read for the entry of index `i` inside the block, on a feed of
sections of table `0x02`, returns; it changes that entry alone and keeps the
program sequence. -/
theorem read_loop_pmt (sz i : Nat) :
    ∀ (feed : List delivery) (next : Bool) (d : dvb_descriptors) (buf : List uchar),
      (∀ bytes : List uchar, delivery.data bytes ∈ feed → bytes ≠ [] →
        byte bytes 0 = 0x02) →
      i < d.pat_table.pid_table.length →
      ∃ r : read_result, read_loop sz (some i) feed next d buf = .ok r ∧
        same_programs d r.dvb_desc ∧
        ∀ m, m ≠ i → r.dvb_desc.pat_table.pid_table[m]? = d.pat_table.pid_table[m]? := by
  intro feed
  induction feed with
  | nil =>
    intro next d buf _ _
    exact ⟨_, by rw [read_loop], same_programs_refl d, fun _ _ => rfl⟩
  | cons x rest ih =>
    intro next d buf h hi
    have hrest : ∀ bytes : List uchar, delivery.data bytes ∈ rest → bytes ≠ [] →
        byte bytes 0 = 0x02 :=
      fun bytes hm hne => h bytes (List.mem_cons_of_mem _ hm) hne
    cases x with
    | timeout => exact ⟨_, by rw [read_loop], same_programs_refl d, fun _ _ => rfl⟩
    | overrun =>
      rw [read_loop]
      exact ih next d buf hrest hi
    | io_error => exact ⟨_, by rw [read_loop], same_programs_refl d, fun _ _ => rfl⟩
    | data bytes =>
      rw [read_loop]
      simp only []
      by_cases h0 : bytes.length = 0
      · rw [if_pos h0]
        exact ⟨_, rfl, same_programs_refl d, fun _ _ => rfl⟩
      · rw [if_neg h0]
        have hne : bytes ≠ [] := by
          intro e; apply h0; rw [e]; rfl
        have ht : byte (bytes ++ buf.drop bytes.length) 0 = 0x02 := by
          rw [byte_append_left _ _ 0 (by omega)]
          exact h bytes (List.mem_cons_self _ _) hne
        by_cases hf : framing_ok (bytes ++ buf.drop bytes.length) bytes.length = true
        · rw [if_pos hf]
          obtain ⟨d1, nx, hdec, hs, ho⟩ := decode_section_pmt sz i d _ ht hi
          rw [hdec]
          simp only []
          by_cases hn : nx = true
          · rw [if_pos hn]
            obtain ⟨r, hr, hs2, ho2⟩ := ih nx d1 (bytes ++ buf.drop bytes.length) hrest
              (by rw [same_programs_length d d1 hs]; exact hi)
            exact ⟨r, hr, same_programs_trans d d1 _ hs hs2,
              fun m hm => (ho2 m hm).trans (ho m hm)⟩
          · rw [if_neg hn]
            exact ⟨_, rfl, hs, ho⟩
        · rw [if_neg hf]
          by_cases hn : next = true
          · rw [if_pos hn]
            exact ih next d _ hrest hi
          · rw [if_neg hn]
            exact ⟨_, rfl, same_programs_refl d, fun _ _ => rfl⟩

/-- What a returning call of `read_section` from `get_dvb_ts_tables` leaves in
the state of the run. -/
theorem call_read_section_inv (sz : Nat) (dev : device) (st st' : scan_state)
    (pid table : Nat) (ptr : Option Nat)
    (h : call_read_section sz dev st pid table ptr = .ok st') :
    ∃ r : read_result,
      read_section sz (dev.sessions st.calls) st.fd_closed st.dvb_desc pid table ptr = .ok r ∧
      st'.dvb_desc = r.dvb_desc ∧ st'.calls = st.calls + 1 ∧
      st'.reads = st.reads ++ [(pid, table, ptr)] := by
  unfold call_read_section at h
  cases hr : read_section sz (dev.sessions st.calls) st.fd_closed st.dvb_desc pid table ptr with
  | error f => rw [hr] at h; cases h
  | ok r =>
    rw [hr] at h
    simp only [Except.ok.injEq] at h
    rw [← h]
    exact ⟨r, rfl, rfl, rfl, rfl⟩

/-- The PMT read that `get_dvb_ts_tables` issues for the entry of index `i`
inside the block, on a demux that honours the filter, returns; it changes
that entry alone and keeps the program sequence. -/
theorem call_read_section_pmt (sz : Nat) (dev : device) (st : scan_state) (pid i : Nat)
    (hf : respects_filter dev) (hi : i < st.dvb_desc.pat_table.pid_table.length) :
    ∃ st' : scan_state, call_read_section sz dev st pid 0x02 (some i) = .ok st' ∧
      st'.reads = st.reads ++ [(pid, 0x02, some i)] ∧
      same_programs st.dvb_desc st'.dvb_desc ∧
      ∀ m, m ≠ i →
        st'.dvb_desc.pat_table.pid_table[m]? = st.dvb_desc.pat_table.pid_table[m]? := by
  unfold call_read_section read_section
  simp only []
  by_cases hc : (st.fd_closed || !(dev.sessions st.calls pid 0x02).ioctl_ok) = true
  · rw [if_pos hc]
    exact ⟨_, rfl, rfl, same_programs_refl _, fun _ _ => rfl⟩
  · rw [if_neg hc]
    obtain ⟨r, hr, hs, ho⟩ := read_loop_pmt sz i (dev.sessions st.calls pid 0x02).feed false
      st.dvb_desc (dev.sessions st.calls pid 0x02).stack
      (fun bytes hm hne => hf st.calls pid 0x02 bytes hm hne) hi
    rw [hr]
    exact ⟨_, rfl, rfl, hs, ho⟩

theorem pmt_reads_congr :
    ∀ (l l' : List pid_table) (i : Nat), l.map entry_key = l'.map entry_key →
      pmt_reads i l = pmt_reads i l' := by
  intro l
  induction l with
  | nil =>
    intro l' i h
    have e : l' = [] := by
      rw [List.map_nil] at h
      exact List.map_eq_nil_iff.mp h.symm
    rw [e]
  | cons a l ih =>
    intro l' i h
    cases l' with
    | nil => simp at h
    | cons b l' =>
      simp only [List.map_cons, List.cons.injEq] at h
      obtain ⟨hk, ht⟩ := h
      have h1 : a.program_number = b.program_number := congrArg Prod.fst hk
      have h2 : a.pid = b.pid := congrArg Prod.snd hk
      simp only [pmt_reads, h1, h2, ih l' (i + 1) ht]

theorem same_programs_map (d d' : dvb_descriptors) (h : same_programs d d') :
    d'.pat_table.pid_table.map entry_key = d.pat_table.pid_table.map entry_key := by
  apply List.ext_getElem?
  intro m
  rw [List.getElem?_map, List.getElem?_map]
  exact h.2.2.2 m

/-- The entries the PMT loop has still to visit from index `i` on: the entry
of index `i` and those behind it. -/
theorem pending_entries (tbl : List pid_table) (len i : Nat) (hi : i < len)
    (hl : len ≤ tbl.length) :
    ∃ e, tbl[i]? = some e ∧
      (tbl.take len).drop i = e :: (tbl.take len).drop (i + 1) := by
  have h1 : i < (tbl.take len).length := by
    rw [List.length_take]; omega
  have h2 : i < tbl.length := by omega
  refine ⟨tbl[i], List.getElem?_eq_getElem h2, ?_⟩
  rw [List.drop_eq_getElem_cons h1, List.getElem_take]

/-- The PMT loop of `get_dvb_ts_tables`, on a demux that honours the filter
and with every counted entry inside the block: it returns, it issues the PMT
reads of `pmt_reads` and nothing else, it keeps the program sequence, and it
leaves untouched every entry whose PMT read times out. -/
theorem pmt_phase_spec (sz : Nat) (dev : device) (hf : respects_filter dev) :
    ∀ (fuel i : Nat) (st : scan_state),
      st.dvb_desc.pat_table.pid_table_len ≤ i + fuel →
      st.dvb_desc.pat_table.pid_table_len ≤ st.dvb_desc.pat_table.pid_table.length →
      (∀ (m : Nat) (e : pid_table), st.dvb_desc.pat_table.pid_table[m]? = some e →
        e.program_number < 0x10000) →
      ∃ st' : scan_state, pmt_phase sz dev fuel i st = .ok st' ∧
        st'.reads = st.reads ++
          pmt_reads i ((st.dvb_desc.pat_table.pid_table.take
            st.dvb_desc.pat_table.pid_table_len).drop i) ∧
        same_programs st.dvb_desc st'.dvb_desc ∧
        ∀ (m : Nat) (e : pid_table), st.dvb_desc.pat_table.pid_table[m]? = some e →
          pmt_times_out dev e.pid → st'.dvb_desc.pat_table.pid_table[m]? = some e := by
  intro fuel
  induction fuel with
  | zero =>
    intro i st h _ _
    have hi : ¬ i < st.dvb_desc.pat_table.pid_table_len := by omega
    refine ⟨st, ?_, ?_, same_programs_refl _, fun m e hm _ => hm⟩
    · unfold pmt_phase
      rw [if_neg hi]
    · rw [List.drop_eq_nil_of_le (by rw [List.length_take]; omega)]
      simp [pmt_reads]
  | succ fuel ih =>
    intro i st h hcap hu
    by_cases hi : i < st.dvb_desc.pat_table.pid_table_len
    · obtain ⟨e, he, hpend⟩ := pending_entries st.dvb_desc.pat_table.pid_table
        st.dvb_desc.pat_table.pid_table_len i hi hcap
      have hpn : e.program_number % 65536 = e.program_number :=
        Nat.mod_eq_of_lt (hu i e he)
      have hg : st.dvb_desc.pat_table.pid_table.get? i = some e := by
        rw [List.get?_eq_getElem?]; exact he
      unfold pmt_phase
      rw [if_pos hi]
      simp only [hg, hpn]
      by_cases hskip : e.program_number < 0x0010 ∨ e.program_number = 0x1fff
      · rw [if_pos hskip]
        obtain ⟨st', h1, h2, h3, h4⟩ := ih (i + 1) st (by omega) hcap hu
        refine ⟨st', h1, ?_, h3, h4⟩
        have hne : ¬ (0x0010 ≤ e.program_number ∧ e.program_number ≠ 0x1FFF) := by omega
        rw [h2, hpend]
        simp only [pmt_reads]
        rw [if_neg hne]
      · rw [if_neg hskip]
        obtain ⟨st1, hc1, hr1, hs1, ho1⟩ := call_read_section_pmt sz dev st e.pid i hf
          (by omega)
        rw [hc1]
        simp only []
        have hlen1 := hs1.2.2.1
        have hcap1 : st1.dvb_desc.pat_table.pid_table_len ≤
            st1.dvb_desc.pat_table.pid_table.length := by
          rw [hlen1, same_programs_length _ _ hs1]; exact hcap
        have hu1 : ∀ (m : Nat) (e : pid_table),
            st1.dvb_desc.pat_table.pid_table[m]? = some e → e.program_number < 0x10000 := by
          intro m e1 hm
          have hk := hs1.2.2.2 m
          rw [hm] at hk
          cases hg0 : st.dvb_desc.pat_table.pid_table[m]? with
          | none => rw [hg0] at hk; cases hk
          | some e0 =>
            rw [hg0] at hk
            simp only [Option.map_some', Option.some.injEq] at hk
            have := hu m e0 hg0
            have hk1 : e1.program_number = e0.program_number := congrArg Prod.fst hk
            omega
        obtain ⟨st', h1, h2, h3, h4⟩ := ih (i + 1) st1 (by omega) hcap1 hu1
        refine ⟨st', h1, ?_, same_programs_trans _ _ _ hs1 h3, ?_⟩
        · have hel : 0x0010 ≤ e.program_number ∧ e.program_number ≠ 0x1FFF := by omega
          have hcongr := pmt_reads_congr
            ((st1.dvb_desc.pat_table.pid_table.take
              st1.dvb_desc.pat_table.pid_table_len).drop (i + 1))
            ((st.dvb_desc.pat_table.pid_table.take
              st.dvb_desc.pat_table.pid_table_len).drop (i + 1)) (i + 1)
            (by rw [List.map_drop, List.map_take, List.map_drop, List.map_take,
                  same_programs_map _ _ hs1, hlen1])
          rw [h2, hr1, hcongr, hpend]
          simp only [pmt_reads]
          rw [if_pos hel]
          simp only [List.append_assoc, List.singleton_append]
        · intro m em hm hto
          apply h4 m em _ hto
          by_cases hmi : m = i
          · obtain ⟨c, hfail⟩ := call_read_section_fails sz dev st e.pid 0x02 (some i)
              (Or.inr (by
                have : em = e := by
                  rw [hmi, he] at hm
                  exact (Option.some.inj hm).symm
                rw [← this]
                exact hto st.calls))
            rw [hfail] at hc1
            simp only [Except.ok.injEq] at hc1
            rw [← hc1]
            exact hm
          · rw [ho1 m hmi]
            exact hm
    · refine ⟨st, ?_, ?_, same_programs_refl _, fun m e hm _ => hm⟩
      · unfold pmt_phase
        rw [if_neg hi]
      · rw [List.drop_eq_nil_of_le (by rw [List.length_take]; omega)]
        simp [pmt_reads]

/-- A read with a NULL `ptr` leaves every entry without video and audio
pids, if that held before. -/
theorem read_section_fresh (sz : Nat) (dmx : Nat → Nat → session) (fd_closed : Bool)
    (d : dvb_descriptors) (pid table : Nat) (r : read_result)
    (hd : ∀ e ∈ d.pat_table.pid_table, e.video_pid = [] ∧ e.audio_pid = [])
    (h : read_section sz dmx fd_closed d pid table none = .ok r) :
    ∀ e ∈ r.dvb_desc.pat_table.pid_table, e.video_pid = [] ∧ e.audio_pid = [] := by
  refine read_section_invariant
    (fun d => ∀ e ∈ d.pat_table.pid_table, e.video_pid = [] ∧ e.audio_pid = [])
    sz dmx fd_closed d pid table none ?_ r hd h
  intro d0 d1 buf nx hd0 hdec
  rcases (decode_section_cases sz none d0 d1 buf nx hdec).2 with
    ⟨_, r', hp⟩ | ⟨_, i, e, e', r', hptr, _, _, _⟩ | ⟨_, _, hd'⟩
  · exact (parse_pat_invariant (fun e => e.video_pid = [] ∧ e.audio_pid = []) sz d0 buf 8
      _ _ _ (fun _ _ _ _ => ⟨rfl, rfl⟩) hd0 (d1, r') hp).2.2
  · cases hptr
  · rw [hd']
    exact hd0

/-- The run of `get_dvb_ts_tables` after a PAT read that left every counted
entry inside the block, on a demux that honours the filter: the PMT reads of
`pmt_reads` and the four probes are issued, the aggregate is returned with the
program sequence of the PAT read, and an entry whose PMT read times out is as
the PAT read left it. -/
theorem get_dvb_ts_tables_run (sz : Nat) (dev : device) (r : read_result)
    (hopen : dev.open_ok = true) (hcalloc : dev.calloc_ok = true)
    (hf : respects_filter dev)
    (hpat : read_section sz (dev.sessions 0) false calloc_desc 0 0 none = .ok r)
    (hcap : r.dvb_desc.pat_table.pid_table_len ≤ r.dvb_desc.pat_table.pid_table.length) :
    ∃ d' : dvb_descriptors,
      get_dvb_ts_tables sz dev =
        .ok { result := some d',
              reads := (0, 0, none) ::
                (pmt_reads 0 (r.dvb_desc.pat_table.pid_table.take
                    r.dvb_desc.pat_table.pid_table_len) ++
                  [(0x0010, 0x40, none), (0x0010, 0x41, none), (0x0011, 0x42, none),
                   (0x0011, 0x46, none)]) } ∧
      same_programs r.dvb_desc d' ∧
      ∀ (m : Nat) (e : pid_table), r.dvb_desc.pat_table.pid_table[m]? = some e →
        pmt_times_out dev e.pid →
        d'.pat_table.pid_table[m]? = some e ∧ e.video_pid = [] ∧ e.audio_pid = [] := by
  have hfit : fields_fit r.dvb_desc = true :=
    read_section_invariant (fun d => fields_fit d = true) sz (dev.sessions 0) false
      calloc_desc 0 0 none
      (fun d d' buf nx hd h => decode_section_fits sz none d d' buf nx hd h) r (by decide) hpat
  have hfresh := read_section_fresh sz (dev.sessions 0) false calloc_desc 0 0 r
    (by intro e he; simp [calloc_desc] at he) hpat
  have hu : ∀ (m : Nat) (e : pid_table), r.dvb_desc.pat_table.pid_table[m]? = some e →
      e.program_number < 0x10000 := by
    intro m e hm
    exact ((entry_fits_iff e).mp
      (((fields_fit_iff _).mp hfit).2 e (List.getElem?_mem hm))).1
  obtain ⟨st2, hp1, hp2, hp3, hp4⟩ := pmt_phase_spec sz dev hf
    r.dvb_desc.pat_table.pid_table_len 0
    { dvb_desc := r.dvb_desc, fd_closed := false || r.closed, calls := 0 + 1,
      reads := [] ++ [(0, 0, none)] }
    (by simp) hcap hu
  obtain ⟨c, hn⟩ := nit_sat_phase_reads sz dev st2 hf
  refine ⟨st2.dvb_desc, ?_, hp3, ?_⟩
  · unfold get_dvb_ts_tables call_read_section
    simp only [hopen, hcalloc, Bool.not_true, Bool.false_eq_true, if_false, hpat, hp1, hn, hp2]
    simp
  · intro m e hm hto
    exact ⟨hp4 m e hm hto, hfresh e (List.getElem?_mem hm)⟩

/-- The reads of `pmt_reads` are the reads for the eligible entries, each with
the pid and the index of its entry. -/
theorem pmt_reads_mem :
    ∀ (l : List pid_table) (j : Nat) (x : Nat × Nat × Option Nat),
      x ∈ pmt_reads j l ↔
        ∃ (i : Nat) (e : pid_table), l[i]? = some e ∧
          0x0010 ≤ e.program_number ∧ e.program_number ≠ 0x1FFF ∧
          x = (e.pid, 0x02, some (j + i)) := by
  intro l
  induction l with
  | nil => intro j x; simp [pmt_reads]
  | cons a l ih =>
    intro j x
    have step : (∃ (i : Nat) (e : pid_table), (a :: l)[i]? = some e ∧
          0x0010 ≤ e.program_number ∧ e.program_number ≠ 0x1FFF ∧
          x = (e.pid, 0x02, some (j + i))) ↔
        ((0x0010 ≤ a.program_number ∧ a.program_number ≠ 0x1FFF ∧ x = (a.pid, 0x02, some j)) ∨
          ∃ (i : Nat) (e : pid_table), l[i]? = some e ∧
            0x0010 ≤ e.program_number ∧ e.program_number ≠ 0x1FFF ∧
            x = (e.pid, 0x02, some (j + 1 + i))) := by
      constructor
      · rintro ⟨i, e, hi, h1, h2, h3⟩
        cases i with
        | zero =>
          simp only [List.getElem?_cons_zero, Option.some.injEq] at hi
          subst hi
          exact Or.inl ⟨h1, h2, h3⟩
        | succ i =>
          simp only [List.getElem?_cons_succ] at hi
          exact Or.inr ⟨i, e, hi, h1, h2, by rw [h3]; congr 3; omega⟩
      · rintro (⟨h1, h2, h3⟩ | ⟨i, e, hi, h1, h2, h3⟩)
        · exact ⟨0, a, by simp, h1, h2, h3⟩
        · exact ⟨i + 1, e, by simpa using hi, h1, h2, by rw [h3]; congr 3; omega⟩
    rw [step]
    unfold pmt_reads
    by_cases hel : 0x0010 ≤ a.program_number ∧ a.program_number ≠ 0x1FFF
    · rw [if_pos hel, List.mem_cons, ih (j + 1) x]
      constructor
      · rintro (h | h)
        · exact Or.inl ⟨hel.1, hel.2, h⟩
        · exact Or.inr h
      · rintro (⟨_, _, h⟩ | h)
        · exact Or.inl h
        · exact Or.inr h
    · rw [if_neg hel, ih (j + 1) x]
      constructor
      · intro h; exact Or.inr h
      · rintro (⟨h1, h2, _⟩ | h)
        · exact absurd ⟨h1, h2⟩ hel
        · exact h

/-- C11: after a PAT read that left the aggregate `r.dvb_desc` with every
counted entry inside the block, and on a demux that honours the filter,
`get_dvb_ts_tables` returns; behind the PAT read and before the four probes it
issues the PMT reads `(entry.pid, 0x02, entry)` for exactly the counted
entries whose program number is at least `0x0010` and is not `0x1FFF`, in the
order of the entries; the other entries (program number below `0x0010`, or
`0x1FFF`) trigger no read, and every entry keeps its program number and pid in
the aggregate returned. -/
theorem get_dvb_ts_tables_pmt_reads (sz : Nat) (dev : device) (r : read_result)
    (hopen : dev.open_ok = true) (hcalloc : dev.calloc_ok = true)
    (hf : respects_filter dev)
    (hpat : read_section sz (dev.sessions 0) false calloc_desc 0 0 none = .ok r)
    (hcap : r.dvb_desc.pat_table.pid_table_len ≤ r.dvb_desc.pat_table.pid_table.length) :
    (∃ d' : dvb_descriptors,
      get_dvb_ts_tables sz dev =
        .ok { result := some d',
              reads := (0, 0, none) ::
                (pmt_reads 0 (r.dvb_desc.pat_table.pid_table.take
                    r.dvb_desc.pat_table.pid_table_len) ++
                  [(0x0010, 0x40, none), (0x0010, 0x41, none), (0x0011, 0x42, none),
                   (0x0011, 0x46, none)]) } ∧
      same_programs r.dvb_desc d') ∧
    ∀ x : Nat × Nat × Option Nat,
      x ∈ pmt_reads 0 (r.dvb_desc.pat_table.pid_table.take
          r.dvb_desc.pat_table.pid_table_len) ↔
        ∃ (i : Nat) (e : pid_table), i < r.dvb_desc.pat_table.pid_table_len ∧
          r.dvb_desc.pat_table.pid_table[i]? = some e ∧
          0x0010 ≤ e.program_number ∧ e.program_number ≠ 0x1FFF ∧
          x = (e.pid, 0x02, some i) := by
  constructor
  · obtain ⟨d', h1, h2, _⟩ := get_dvb_ts_tables_run sz dev r hopen hcalloc hf hpat hcap
    exact ⟨d', h1, h2⟩
  · intro x
    rw [pmt_reads_mem]
    constructor
    · rintro ⟨i, e, hi, h1, h2, h3⟩
      rw [List.getElem?_take] at hi
      by_cases hlt : i < r.dvb_desc.pat_table.pid_table_len
      · rw [if_pos hlt] at hi
        exact ⟨i, e, hlt, hi, h1, h2, by rw [h3, Nat.zero_add]⟩
      · rw [if_neg hlt] at hi
        cases hi
    · rintro ⟨i, e, hlt, hi, h1, h2, h3⟩
      refine ⟨i, e, ?_, h1, h2, by rw [h3, Nat.zero_add]⟩
      rw [List.getElem?_take, if_pos hlt]
      exact hi

/-- C13: under the conditions of the PMT phase (a PAT read that left every
counted entry inside the block, a demux that honours the filter), if the PMT
read of the eligible entry `e` of index `i` times out, `get_dvb_ts_tables`
still returns the aggregate: the read for `e` was issued, so were the PMT
reads of all other eligible entries and the four probes, every entry keeps
its program number and pid, and the entry `e` is as the PAT read left it,
with no video and no audio pid. -/
theorem get_dvb_ts_tables_pmt_timeout (sz : Nat) (dev : device) (r : read_result)
    (i : Nat) (e : pid_table)
    (hopen : dev.open_ok = true) (hcalloc : dev.calloc_ok = true)
    (hf : respects_filter dev)
    (hpat : read_section sz (dev.sessions 0) false calloc_desc 0 0 none = .ok r)
    (hcap : r.dvb_desc.pat_table.pid_table_len ≤ r.dvb_desc.pat_table.pid_table.length)
    (hi : i < r.dvb_desc.pat_table.pid_table_len)
    (he : r.dvb_desc.pat_table.pid_table[i]? = some e)
    (hel : 0x0010 ≤ e.program_number ∧ e.program_number ≠ 0x1FFF)
    (hto : pmt_times_out dev e.pid) :
    ∃ d' : dvb_descriptors,
      get_dvb_ts_tables sz dev =
        .ok { result := some d',
              reads := (0, 0, none) ::
                (pmt_reads 0 (r.dvb_desc.pat_table.pid_table.take
                    r.dvb_desc.pat_table.pid_table_len) ++
                  [(0x0010, 0x40, none), (0x0010, 0x41, none), (0x0011, 0x42, none),
                   (0x0011, 0x46, none)]) } ∧
      (e.pid, 0x02, some i) ∈ pmt_reads 0 (r.dvb_desc.pat_table.pid_table.take
          r.dvb_desc.pat_table.pid_table_len) ∧
      same_programs r.dvb_desc d' ∧
      d'.pat_table.pid_table[i]? = some e ∧ e.video_pid = [] ∧ e.audio_pid = [] := by
  obtain ⟨d', h1, h2, h3⟩ := get_dvb_ts_tables_run sz dev r hopen hcalloc hf hpat hcap
  refine ⟨d', h1, ?_, h2, h3 i e he hto⟩
  rw [pmt_reads_mem]
  refine ⟨i, e, ?_, hel.1, hel.2, by rw [Nat.zero_add]⟩
  rw [List.getElem?_take, if_pos hi]
  exact he

/-- Witness for C11: the sample demux, whose PAT lists four programs, two of
them eligible. -/
theorem get_dvb_ts_tables_pmt_reads_witness :
    (sample_device.open_ok = true ∧ sample_device.calloc_ok = true ∧
      respects_filter sample_device ∧
      read_section 40 (sample_device.sessions 0) false calloc_desc 0 0 none =
        .ok sample_pat_read ∧
      sample_pat_read.dvb_desc.pat_table.pid_table_len ≤ sample_pat_read.dvb_desc.pat_table.pid_table.length) ∧
    ((∃ d' : dvb_descriptors,
      get_dvb_ts_tables 40 sample_device =
        .ok { result := some d',
              reads := (0, 0, none) ::
                (pmt_reads 0 (sample_pat_read.dvb_desc.pat_table.pid_table.take sample_pat_read.dvb_desc.pat_table.pid_table_len) ++
                  [(0x0010, 0x40, none), (0x0010, 0x41, none), (0x0011, 0x42, none), (0x0011, 0x46, none)]) } ∧
      same_programs sample_pat_read.dvb_desc d') ∧
    ∀ x : Nat × Nat × Option Nat,
      x ∈ pmt_reads 0 (sample_pat_read.dvb_desc.pat_table.pid_table.take sample_pat_read.dvb_desc.pat_table.pid_table_len) ↔
        ∃ (i : Nat) (e : pid_table), i < sample_pat_read.dvb_desc.pat_table.pid_table_len ∧
          sample_pat_read.dvb_desc.pat_table.pid_table[i]? = some e ∧
          0x0010 ≤ e.program_number ∧ e.program_number ≠ 0x1FFF ∧
          x = (e.pid, 0x02, some i)) :=
  have hf : respects_filter sample_device := by
    intro k pid table bytes hm _
    simp only [sample_device] at hm
    split_ifs at hm with h0 h2
    · simp only [List.mem_singleton, delivery.data.injEq] at hm
      rw [hm, h0]
      decide
    · simp only [List.mem_singleton, delivery.data.injEq] at hm
      rw [hm, h2.1]
      decide
    · simp at hm
  ⟨⟨rfl, rfl, hf, by decide, by decide⟩,
    get_dvb_ts_tables_pmt_reads 40 sample_device sample_pat_read rfl rfl hf (by decide) (by decide)⟩

/-- Witness for C13: on the sample demux the PMT read of program `0x0011`
(entry 1, pid `0x0100`) times out. -/
theorem get_dvb_ts_tables_pmt_timeout_witness :
    (sample_device.open_ok = true ∧ sample_device.calloc_ok = true ∧
      respects_filter sample_device ∧
      read_section 40 (sample_device.sessions 0) false calloc_desc 0 0 none =
        .ok sample_pat_read ∧
      sample_pat_read.dvb_desc.pat_table.pid_table_len ≤ sample_pat_read.dvb_desc.pat_table.pid_table.length ∧
      1 < sample_pat_read.dvb_desc.pat_table.pid_table_len ∧
      sample_pat_read.dvb_desc.pat_table.pid_table[1]? = some (pat_entry 0x0011 0x0100) ∧
      (0x0010 ≤ (pat_entry 0x0011 0x0100).program_number ∧
        (pat_entry 0x0011 0x0100).program_number ≠ 0x1FFF) ∧
      pmt_times_out sample_device (pat_entry 0x0011 0x0100).pid) ∧
    ∃ d' : dvb_descriptors,
      get_dvb_ts_tables 40 sample_device =
        .ok { result := some d',
              reads := (0, 0, none) ::
                (pmt_reads 0 (sample_pat_read.dvb_desc.pat_table.pid_table.take sample_pat_read.dvb_desc.pat_table.pid_table_len) ++
                  [(0x0010, 0x40, none), (0x0010, 0x41, none), (0x0011, 0x42, none), (0x0011, 0x46, none)]) } ∧
      ((pat_entry 0x0011 0x0100).pid, 0x02, some 1) ∈
        pmt_reads 0 (sample_pat_read.dvb_desc.pat_table.pid_table.take sample_pat_read.dvb_desc.pat_table.pid_table_len) ∧
      same_programs sample_pat_read.dvb_desc d' ∧
      d'.pat_table.pid_table[1]? = some (pat_entry 0x0011 0x0100) ∧
      (pat_entry 0x0011 0x0100).video_pid = [] ∧
      (pat_entry 0x0011 0x0100).audio_pid = [] :=
  have hf : respects_filter sample_device := by
    intro k pid table bytes hm _
    simp only [sample_device] at hm
    split_ifs at hm with h0 h2
    · simp only [List.mem_singleton, delivery.data.injEq] at hm
      rw [hm, h0]
      decide
    · simp only [List.mem_singleton, delivery.data.injEq] at hm
      rw [hm, h2.1]
      decide
    · simp at hm
  have hto : pmt_times_out sample_device (pat_entry 0x0011 0x0100).pid := fun _ => rfl
  ⟨⟨rfl, rfl, hf, by decide, by decide, by decide, rfl, by decide, hto⟩,
    get_dvb_ts_tables_pmt_timeout 40 sample_device sample_pat_read 1 (pat_entry 0x0011 0x0100)
      rfl rfl hf (by decide) (by decide) (by decide) rfl (by decide) hto⟩

end Libscan
